import Mathlib

/-!
Shallow embedding of src/core/utils/boq_parser.py (BoQ spreadsheet parser).

Cell values are modelled by an inductive type covering the values pandas
hands to the parser: None, float NaN (the padding value for empty cells),
strings and integers.  Python Decimal values arising in this parser are
always finite exact decimals (they come from integer cells or from digit
strings, and the arithmetic on them is exact at these magnitudes), so they
are modelled by a scaled integer num / 10 ^ exp — exactly the coefficient /
exponent representation Decimal itself uses — with numeric (cross-multiplied)
equality and order, and interpreted in ℚ by Dec.toRat for specifications.
The Decimal NaN / InvalidOperation branches of the source are unreachable
in this model and noted in comments.
-/

namespace BoQ

inductive Cell where
  | cnone : Cell
  | cnan : Cell
  | cstr : String → Cell
  | cint : Int → Cell
deriving DecidableEq, Repr

/-- A finite Python Decimal: the value num / 10 ^ exp. -/
structure Dec where
  num : Int
  exp : Nat
deriving DecidableEq, Repr

namespace Dec

def zero : Dec := ⟨0, 0⟩

/-- Decimal("0.01"), the integrity-check tolerance. -/
def tol : Dec := ⟨1, 2⟩

/-- Decimal multiplication (exact). -/
def mul (a b : Dec) : Dec := ⟨a.num * b.num, a.exp + b.exp⟩

/-- Decimal subtraction (exact at the magnitudes this parser handles). -/
def sub (a b : Dec) : Dec := ⟨a.num * 10 ^ b.exp - b.num * 10 ^ a.exp, a.exp + b.exp⟩

def absD (a : Dec) : Dec := ⟨|a.num|, a.exp⟩

/-- Python Decimal == : numeric equality of the represented values. -/
def beqNum (a b : Dec) : Bool := a.num * 10 ^ b.exp = b.num * 10 ^ a.exp

/-- Python Decimal <= : numeric order of the represented values. -/
def bleNum (a b : Dec) : Bool := a.num * 10 ^ b.exp ≤ b.num * 10 ^ a.exp

/-- The rational value a Dec stands for. -/
def toRat (a : Dec) : ℚ := (a.num : ℚ) / (10 : ℚ) ^ a.exp

end Dec

/-- position.total_price is None or position.total_price == Decimal(0),
and the analogous fill-once guards of parse_positions. -/
def isNoneOrZero : Option Dec → Bool
  | none => true
  | some d => d.beqNum Dec.zero

/-- Python str(value): str(None) is never reached on the paths below
(the source checks for None first), NaN prints as "nan". -/
def pyStr : Cell → String
  | .cnone => "None"
  | .cnan => "nan"
  | .cstr s => s
  | .cint z => toString z

/-- Characters Python str.strip removes (whitespace incl. NBSP). -/
def pyIsSpace (c : Char) : Bool :=
  c = ' ' || c = '\t' || c = '\n' || c = '\r' || c = '\x0b' || c = '\x0c' || c = ' '

/-- Python str.lower restricted to the alphabets appearing in this parser
(ASCII plus the Latin letters of the Serbian header variants). -/
def pyLowerChar (c : Char) : Char :=
  if 'A' ≤ c ∧ c ≤ 'Z' then Char.ofNat (c.toNat + 32)
  else if c = 'Č' then 'č'
  else if c = 'Ć' then 'ć'
  else if c = 'Š' then 'š'
  else if c = 'Ž' then 'ž'
  else if c = 'Đ' then 'đ'
  else c

def stripList (cs : List Char) : List Char :=
  ((cs.dropWhile pyIsSpace).reverse.dropWhile pyIsSpace).reverse

def pyStrip (s : String) : String := String.mk (stripList s.data)

def pyLower (s : String) : String := String.mk (s.data.map pyLowerChar)

/-- text.replace("²","2").replace("³","3") (single-char substrings). -/
def replaceSupChar (c : Char) : Char :=
  if c = '²' then '2' else if c = '³' then '3' else c

def replaceSup (s : String) : String := String.mk (s.data.map replaceSupChar)

/-- normalize_header_value from the source. -/
def normalize_header_value (v : Cell) : String :=
  match v with
  | .cnone => ""
  | v => replaceSup (pyLower (pyStrip (pyStr v)))

/-- COLUMN_VARIANTS, in dict insertion order. -/
def COLUMN_VARIANTS : List (String × List String) :=
  [ ("position_id",
      ["redni broj", "r.br", "r. br.", "rb", "r-b", "red. br.", "pozicija",
       "poz.", "poz", "item no", "item", "no", "№", "бр.", "редни број",
       "ред. бр.", "поз.", "позиција"]),
    ("description",
      ["opis", "opis radova", "naziv", "naziv radova", "radovi", "description",
       "desc", "item description", "опис", "опис радова", "назив"]),
    ("unit",
      ["jm", "jedinica", "jedinica mere", "jed. mera", "jed. m.", "j.m.",
       "unit", "uom", "јединица", "јед. мера", "јм"]),
    ("quantity",
      ["količina", "kol.", "količ.", "količina [jm]", "qty", "quantity",
       "количина", "кол."]),
    ("unit_price",
      ["jedinična cena", "jed. cena", "jed.čena", "jedinicna cena", "jc",
       "cena/jm", "unit price", "rate", "јединична цена", "јед. цена"]),
    ("total_price",
      ["iznos", "ukupno", "vrednost", "amount", "total", "subtotal",
       "сума", "износ", "укупно", "вредност"]) ]

def ALLOWED_UNITS : List String :=
  ["m", "m2", "m3", "kg", "t", "kom", "set", "par", "dan", "h", "č", "km",
   "l", "kwh", "g", "pak", "rol", "pal", "voz", "sat", "mes", "god"]

def TOTAL_MARKERS : List String := ["ukupno", "sum", "zbir", "total"]

/-- Score of one normalized header-row cell: +2 per canonical field whose
variant list contains it, +1 if it is a known unit token. -/
def cellScore (cell : String) : Nat :=
  2 * (COLUMN_VARIANTS.filter (fun kv => cell ∈ kv.2)).length
    + (if cell ∈ ALLOWED_UNITS then 1 else 0)

def rowScore (normalized : List String) : Nat :=
  normalized.foldl (fun acc cell => acc + cellScore cell) 0

/-- The loop of find_header_row: best index / best score so far, early
exit once a row scores at least 4. -/
def findHeaderAux : List (List Cell) → Nat → Option Nat → Nat → Option Nat
  | [], _, best, _ => best
  | row :: rest, idx, best, bestScore =>
    let normalized := row.map normalize_header_value
    let nonEmpty := (normalized.filter (fun c => c ≠ "")).length
    if nonEmpty < 3 then findHeaderAux rest (idx + 1) best bestScore
    else
      let score := rowScore normalized
      let best2 := if score > bestScore then some idx else best
      let bestScore2 := if score > bestScore then score else bestScore
      if score ≥ 4 then best2
      else findHeaderAux rest (idx + 1) best2 bestScore2

def find_header_row (rows : List (List Cell)) : Option Nat :=
  findHeaderAux rows 0 none 0

/-- The partial field → column-index dict built by match_columns_by_name. -/
structure FieldMap where
  position_id : Option Nat := none
  description : Option Nat := none
  unit : Option Nat := none
  quantity : Option Nat := none
  unit_price : Option Nat := none
  total_price : Option Nat := none
deriving DecidableEq, Repr

def variantsOf (category : String) : List String :=
  ((COLUMN_VARIANTS.filter (fun kv => kv.1 = category)).map (fun kv => kv.2)).flatten

/-- One header cell against every category: each category is set to idx
when the cell is one of its variants and the category is not yet present.
(The source's loop touches each of the six dict keys independently, so the
six updates commute and are written here as one record.) -/
def variantUpdate (m : FieldMap) (norm : String) (idx : Nat) : FieldMap :=
  { position_id := if norm ∈ variantsOf "position_id" ∧ m.position_id = none then
      some idx else m.position_id,
    description := if norm ∈ variantsOf "description" ∧ m.description = none then
      some idx else m.description,
    unit := if norm ∈ variantsOf "unit" ∧ m.unit = none then
      some idx else m.unit,
    quantity := if norm ∈ variantsOf "quantity" ∧ m.quantity = none then
      some idx else m.quantity,
    unit_price := if norm ∈ variantsOf "unit_price" ∧ m.unit_price = none then
      some idx else m.unit_price,
    total_price := if norm ∈ variantsOf "total_price" ∧ m.total_price = none then
      some idx else m.total_price }

def matchColsAux : List Cell → Nat → FieldMap → FieldMap
  | [], _, m => m
  | h :: rest, idx, m =>
    let normalized := normalize_header_value h
    let m2 := if normalized = "" then m else variantUpdate m normalized idx
    matchColsAux rest (idx + 1) m2

def match_columns_by_name (headers : List Cell) : FieldMap :=
  matchColsAux headers 0 {}

/-- POSITION_PATTERN = ^\d+([.\-]\d+)*$ : digit groups separated by single
dots or dashes.  Equivalent closed characterization: nonempty, every char a
digit or separator, first and last chars digits, no two adjacent separators. -/
def isPosSep (c : Char) : Bool := c = '.' || c = '-'

def noAdjacentSeps : List Char → Bool
  | c1 :: c2 :: rest => !(isPosSep c1 && isPosSep c2) && noAdjacentSeps (c2 :: rest)
  | _ => true

def matchesPositionPattern (s : String) : Bool :=
  let cs := s.data
  !cs.isEmpty
    && cs.all (fun c => c.isDigit || isPosSep c)
    && (cs.head?.elim false Char.isDigit)
    && (cs.getLast?.elim false Char.isDigit)
    && noAdjacentSeps cs

def column_contains_units (col : List Cell) : Nat :=
  (col.filter (fun v => normalize_header_value v ∈ ALLOWED_UNITS)).length

/-- Python max(range(n), key=f): the first index attaining the maximum
(in infer_columns_structurally the position-id loop initializes best to
(0, -1), which is the same first-max-wins result for n ≥ 1). -/
def firstArgmax (f : Nat → Nat) (n : Nat) : Nat :=
  (List.range n).foldl (fun best c => if f c > f best then c else best) 0

structure ColumnMapping where
  position_id : Nat
  description : Nat
  unit : Nat
  quantity : Nat
  unit_price : Nat
  total_price : Nat
deriving DecidableEq, Repr

/-- Column j of the data area (the rows strictly below the header). -/
def dataColumn (rows : List (List Cell)) (header_idx : Nat) (j : Nat) : List Cell :=
  (rows.drop (header_idx + 1)).map (fun r => r.getD j Cell.cnan)

/-- The unit-column block of infer_columns_structurally. -/
def inferUnitCol (rows : List (List Cell)) (ncols header_idx : Nat) (m : FieldMap) : Nat :=
  match m.unit with
  | some u => u
  | none => firstArgmax (fun c => column_contains_units (dataColumn rows header_idx c)) ncols

/-- The quantity block: one left of unit, clamped at 0. -/
def inferQuantityCol (unit : Nat) (m : FieldMap) : Nat :=
  match m.quantity with
  | some q => q
  | none => if unit > 0 then unit - 1 else unit

/-- The total_price block: one right of unit, or unit if at the edge. -/
def inferTotalPriceCol (unit ncols : Nat) (m : FieldMap) : Nat :=
  match m.total_price with
  | some t => t
  | none => if unit + 1 < ncols then unit + 1 else unit

/-- The unit_price block: one right of quantity unless that is the unit
column, clamped to the last column. -/
def inferUnitPriceCol (quantity unit ncols : Nat) (m : FieldMap) : Nat :=
  match m.unit_price with
  | some up => up
  | none =>
    let potential := quantity + 1
    if potential ≠ unit then min potential (ncols - 1) else unit

/-- The position_id block: the column with the most position-pattern hits. -/
def inferPositionIdCol (rows : List (List Cell)) (ncols header_idx : Nat) (m : FieldMap) : Nat :=
  match m.position_id with
  | some p => p
  | none =>
    firstArgmax
      (fun c => ((dataColumn rows header_idx c).filter
        (fun v => matchesPositionPattern (normalize_header_value v))).length) ncols

/-- The description block: one right of position_id, clamped. -/
def inferDescriptionCol (position_id ncols : Nat) (m : FieldMap) : Nat :=
  match m.description with
  | some d => d
  | none => min (position_id + 1) (ncols - 1)

/-- infer_columns_structurally; ncols is df.shape[1].  Python ints are
modelled by ℕ: every subtraction is guarded (unit - 1 only when unit > 0;
ncols - 1 is only reached from the driver where ncols ≥ 3). -/
def infer_columns_structurally (rows : List (List Cell)) (ncols : Nat)
    (header_idx : Nat) (m : FieldMap) : ColumnMapping :=
  let unit := inferUnitCol rows ncols header_idx m
  let quantity := inferQuantityCol unit m
  let total_price := inferTotalPriceCol unit ncols m
  let unit_price := inferUnitPriceCol quantity unit ncols m
  let position_id := inferPositionIdCol rows ncols header_idx m
  let description := inferDescriptionCol position_id ncols m
  ⟨position_id, description, unit, quantity, unit_price, total_price⟩

/-- NUMERIC_RE = -?\d+[\d.,]* : after the leading digit the pattern takes
the maximal run of digits, dots and commas. -/
def isNumTail (c : Char) : Bool := c.isDigit || c = '.' || c = ','

/-- re.search of NUMERIC_RE: leftmost match, greedy. -/
def firstNumericMatch : List Char → Option (List Char)
  | [] => none
  | c :: cs =>
    if c.isDigit then some (c :: cs.takeWhile isNumTail)
    else if c = '-' && (cs.head?.elim false Char.isDigit) then
      some ('-' :: cs.takeWhile isNumTail)
    else firstNumericMatch cs

/-- .replace(".", "").replace(",", ".") on the matched substring. -/
def euroTransform (m : List Char) : List Char :=
  (m.filter (fun c => c ≠ '.')).map (fun c => if c = ',' then '.' else c)

def digitsVal (cs : List Char) : Nat :=
  cs.foldl (fun a c => a * 10 + (c.toNat - ('0').toNat)) 0

/-- Python Decimal(string) on the sign/digits/dot strings this parser can
produce: optional sign then digits with at most one dot and at least one
digit; anything else raises InvalidOperation, i.e. yields none here.
"1234.56" becomes the coefficient/exponent pair (123456, 2). -/
def decimalOfChars (cs : List Char) : Option Dec :=
  let sgn : Bool := cs.head? = some '-'
  let body := if cs.head? = some '-' || cs.head? = some '+' then cs.tail else cs
  let intPart := body.takeWhile (fun c => c ≠ '.')
  let rest := body.dropWhile (fun c => c ≠ '.')
  let fracPart := rest.tail
  let ok :=
    intPart.all Char.isDigit && fracPart.all Char.isDigit
      && !(fracPart.contains '.')
      && !(intPart.isEmpty && fracPart.isEmpty)
  if ok then
    let mag : Int := (digitsVal intPart : Int) * 10 ^ fracPart.length + (digitsVal fracPart : Int)
    some ⟨if sgn then -mag else mag, fracPart.length⟩
  else none

/-- parse_decimal from the source.  int cells are exact; float NaN yields
none via the isnan guard; text goes through strip, the empty check, the
NBSP replacement, the regex search, and the European-decimal rewrite. -/
def parse_decimal (v : Cell) : Option Dec :=
  match v with
  | .cnone => none
  | .cnan => none
  | .cint z => some ⟨z, 0⟩
  | .cstr s =>
    let text := stripList s.data
    if text.isEmpty then none
    else
      let text := text.map (fun c => if c = ' ' then ' ' else c)
      match firstNumericMatch text with
      | none => none
      | some m => decimalOfChars (euroTransform m)

/-- needle in hay (Python substring containment). -/
def containsSub (needle : List Char) : List Char → Bool
  | [] => needle.isEmpty
  | c :: rest => needle.isPrefixOf (c :: rest) || containsSub needle rest

def is_total_row (values : List Cell) : Bool :=
  values.any (fun v =>
    TOTAL_MARKERS.any (fun mk => containsSub mk.data (normalize_header_value v).data))

def clean_text (v : Cell) : String :=
  match v with
  | .cnone => ""
  | v =>
    let text := pyStrip (pyStr v)
    if text = "" then ""
    else if pyLower text ∈ ["nan", "none", "null"] then ""
    else text

structure BoQPosition where
  discipline : String
  position_id : String
  description : String
  unit : String
  quantity : Option Dec
  unit_price : Option Dec
  total_price : Option Dec
  source_row_indices : List Nat
  computed_total : Option Dec := none
  total_matches : Bool := true
deriving DecidableEq, Repr

/-- enforce_numeric_integrity.  The Decimal-NaN and InvalidOperation
branches of the source are unreachable here: every Decimal this parser
builds comes from an int cell or a digit string, hence is a finite exact
decimal, modelled by ℚ.  Warnings are threaded explicitly (the source
mutates the list in place). -/
def enforce_numeric_integrity (p : BoQPosition) (warnings : List String) :
    BoQPosition × List String :=
  let quantity := p.quantity.getD Dec.zero
  let unit_price := p.unit_price.getD Dec.zero
  let computed : Dec := quantity.mul unit_price
  let p1 := { p with computed_total := some computed }
  let step2 : BoQPosition × List String :=
    if isNoneOrZero p1.total_price then
      ({ p1 with total_price := some computed, total_matches := true }, warnings)
    else
      let declared := p1.total_price.getD Dec.zero
      let difference := (declared.sub computed).absD
      let tmatch := difference.bleNum Dec.tol
      let warnings2 :=
        if tmatch then warnings
        else warnings ++ ["Position " ++ p1.position_id ++ " total mismatch: source="
          ++ toString declared.num ++ " computed=" ++ toString computed.num]
      ({ p1 with total_matches := tmatch }, warnings2)
  let p2 := step2.1
  let w2 := step2.2
  let w3 := if p2.quantity = none then
    w2 ++ ["Position " ++ p2.position_id ++ " missing quantity"] else w2
  let w4 := if p2.unit_price = none then
    w3 ++ ["Position " ++ p2.position_id ++ " missing unit price"] else w3
  let w5 := if p2.unit = "" then
    w4 ++ ["Position " ++ p2.position_id ++ " missing unit of measure"] else w4
  (p2, w5)

/-- The loop state of parse_positions: emitted positions, warnings, the
position being accumulated and its pending description fragments. -/
structure ParseState where
  positions : List BoQPosition
  warnings : List String
  current : Option BoQPosition
  description_parts : List String
deriving DecidableEq, Repr

/-- Finalizing the current position: join the accumulated description
fragments, warn when empty, run the integrity check, append to results. -/
def finalizeCurrent (discipline : String) (cur : BoQPosition) (parts : List String)
    (positions : List BoQPosition) (warnings : List String) :
    List BoQPosition × List String :=
  let desc := pyStrip (String.intercalate " " (parts.filter (fun s => s ≠ "")))
  let warnings1 :=
    if desc = "" then
      warnings ++ ["Sheet " ++ discipline ++ ": missing description for position "
        ++ cur.position_id]
    else warnings
  let cur1 := { cur with description := desc }
  let r := enforce_numeric_integrity cur1 warnings1
  (positions ++ [r.1], r.2)

/-- if unit_token and unit_token in ALLOWED_UNITS and not current.unit. -/
def fillUnit (cur : BoQPosition) (unit_token : String) : BoQPosition :=
  if unit_token ≠ "" ∧ unit_token ∈ ALLOWED_UNITS ∧ cur.unit = "" then
    { cur with unit := unit_token }
  else cur

/-- if quantity is not None and (current.quantity is None or == 0). -/
def fillQuantity (cur : BoQPosition) (v : Option Dec) : BoQPosition :=
  match v with
  | some q => if isNoneOrZero cur.quantity then { cur with quantity := some q } else cur
  | none => cur

/-- if unit_price is not None and (current.unit_price is None or == 0). -/
def fillUnitPrice (cur : BoQPosition) (v : Option Dec) : BoQPosition :=
  match v with
  | some up => if isNoneOrZero cur.unit_price then { cur with unit_price := some up } else cur
  | none => cur

/-- if total_price is not None and (current.total_price is None or == 0). -/
def fillTotalPrice (cur : BoQPosition) (v : Option Dec) : BoQPosition :=
  match v with
  | some tp => if isNoneOrZero cur.total_price then { cur with total_price := some tp } else cur
  | none => cur

/-- One iteration of the parse_positions row loop at raw row index rel_idx. -/
def parseStep (mapping : ColumnMapping) (discipline : String) (st : ParseState)
    (rel_idx : Nat) (row : List Cell) : ParseState :=
  if is_total_row row then st
  else
    let raw_id := clean_text (row.getD mapping.position_id Cell.cnan)
    let desc_fragment := clean_text (row.getD mapping.description Cell.cnan)
    let unit_token :=
      if mapping.unit < row.length then
        normalize_header_value (row.getD mapping.unit Cell.cnan)
      else ""
    let quantity :=
      if mapping.quantity < row.length then parse_decimal (row.getD mapping.quantity Cell.cnan)
      else none
    let unit_price :=
      if mapping.unit_price < row.length then parse_decimal (row.getD mapping.unit_price Cell.cnan)
      else none
    let total_price :=
      if mapping.total_price < row.length then parse_decimal (row.getD mapping.total_price Cell.cnan)
      else none
    let st1 :=
      if raw_id ≠ "" then
        let pw : List BoQPosition × List String :=
          match st.current with
          | some cur =>
            finalizeCurrent discipline cur st.description_parts st.positions st.warnings
          | none => (st.positions, st.warnings)
        { positions := pw.1, warnings := pw.2,
          current := some
            { discipline := discipline, position_id := raw_id, description := "",
              unit := "", quantity := none, unit_price := none, total_price := none,
              source_row_indices := [rel_idx] },
          description_parts := [] }
      else st
    match st1.current with
    | none => st1
    | some cur =>
      let cur1 := { cur with source_row_indices := cur.source_row_indices ++ [rel_idx] }
      let parts :=
        if desc_fragment ≠ "" then st1.description_parts ++ [desc_fragment]
        else st1.description_parts
      let cur2 := fillUnit cur1 unit_token
      let cur3 := fillQuantity cur2 quantity
      let cur4 := fillUnitPrice cur3 unit_price
      let cur5 := fillTotalPrice cur4 total_price
      { st1 with current := some cur5, description_parts := parts }

def parsePosAux (mapping : ColumnMapping) (discipline : String) :
    ParseState → Nat → List (List Cell) → ParseState
  | st, _, [] => st
  | st, i, row :: rest =>
    parsePosAux mapping discipline (parseStep mapping discipline st i row) (i + 1) rest

/-- parse_positions: enumerate(df.iloc[header_idx+1:], start=header_idx+1)
then flush the last accumulated position. -/
def parse_positions (rows : List (List Cell)) (mapping : ColumnMapping)
    (header_idx : Nat) (discipline : String) : List BoQPosition × List String :=
  let st := parsePosAux mapping discipline
    { positions := [], warnings := [], current := none, description_parts := [] }
    (header_idx + 1) (rows.drop (header_idx + 1))
  match st.current with
  | some cur => finalizeCurrent discipline cur st.description_parts st.positions st.warnings
  | none => (st.positions, st.warnings)

/-- The plain record BoQPosition.to_dict emits.  computed_total = none
models the key being absent from the payload.  (The source converts the
Decimals to floats; the numeric values themselves are kept exact here.) -/
structure PositionRecord where
  discipline : String
  position_id : String
  description : String
  unit : String
  quantity : Dec
  unit_price : Dec
  total_price : Dec
  computed_total : Option Dec
deriving DecidableEq, Repr

def BoQPosition.to_dict (p : BoQPosition) : PositionRecord :=
  { discipline := p.discipline
    position_id := p.position_id
    description := p.description
    unit := p.unit
    quantity := p.quantity.getD Dec.zero
    unit_price := p.unit_price.getD Dec.zero
    total_price := p.total_price.getD Dec.zero
    computed_total :=
      if p.total_matches = false ∧ p.computed_total ≠ none then p.computed_total
      else none }

structure DisciplineResult where
  discipline : String
  sheet_name : String
  positions : List BoQPosition
  warnings : List String
deriving DecidableEq, Repr

/-- Width of the pandas frame for a sheet: max row length. -/
def maxWidth (rows : List (List Cell)) : Nat :=
  rows.foldl (fun a r => max a r.length) 0

/-- excel.parse pads every row with NaN cells to the frame width. -/
def toDF (rows : List (List Cell)) : List (List Cell) :=
  rows.map (fun r => r ++ List.replicate (maxWidth rows - r.length) Cell.cnan)

/-- BoQParser.parse_workbook over an already-loaded workbook: an ordered
list of (sheet name, raw cell grid) pairs. -/
def parse_workbook (sheets : List (String × List (List Cell))) : List DisciplineResult :=
  sheets.map (fun sh =>
    let sheet_name := sh.1
    let df := toDF sh.2
    let discipline := pyStrip sheet_name
    match find_header_row df with
    | none =>
      { discipline := discipline, sheet_name := sheet_name, positions := [],
        warnings := ["Header row could not be detected"] }
    | some header_idx =>
      let headers := df.getD header_idx []
      let m := match_columns_by_name headers
      let colmap := infer_columns_structurally df (maxWidth sh.2) header_idx m
      let pw := parse_positions df colmap header_idx discipline
      { discipline := discipline, sheet_name := sheet_name, positions := pw.1,
        warnings := pw.2 })

/-- The column mapping the driver builds for a sheet once a header row was
found at index h (the body of the parse_workbook loop between
find_header_row and parse_positions). -/
def sheetColumnMapping (raw : List (List Cell)) (h : Nat) : ColumnMapping :=
  infer_columns_structurally (toDF raw) (maxWidth raw) h
    (match_columns_by_name ((toDF raw).getD h []))

/-- Row index i of a sheet seen as the assembler sees it. -/
def rowAt (rows : List (List Cell)) (i : Nat) : List Cell := rows.getD i []

/-- The description fragment row i contributes. -/
def descFragmentAt (rows : List (List Cell)) (mapping : ColumnMapping) (i : Nat) : String :=
  clean_text ((rowAt rows i).getD mapping.description Cell.cnan)

/-- Row i starts a new position: non-empty cleaned position-id cell and not
a total row. -/
def isNewPositionRowAt (rows : List (List Cell)) (mapping : ColumnMapping) (i : Nat) : Bool :=
  !is_total_row (rowAt rows i)
    && clean_text ((rowAt rows i).getD mapping.position_id Cell.cnan) ≠ ""

/-- Row i is a continuation row: empty cleaned position-id cell and not a
total row. -/
def isContinuationRowAt (rows : List (List Cell)) (mapping : ColumnMapping) (i : Nat) : Bool :=
  !is_total_row (rowAt rows i)
    && clean_text ((rowAt rows i).getD mapping.position_id Cell.cnan) = ""

/-- Scenario A of the spec: canonical header row and one fully populated
data row. -/
def scenarioA : List (List Cell) :=
  [ [Cell.cstr "Poz.", Cell.cstr "Opis", Cell.cstr "JM", Cell.cstr "Količina",
     Cell.cstr "Jed. cena", Cell.cstr "Iznos"],
    [Cell.cstr "1", Cell.cstr "Beton", Cell.cstr "m3", Cell.cstr "10",
     Cell.cstr "100", Cell.cstr "1000"] ]

/-- Scenario A's parsed position. -/
def scenarioAPos : BoQPosition :=
  { discipline := "Sheet1", position_id := "1", description := "Beton",
    unit := "m3", quantity := some ⟨10, 0⟩, unit_price := some ⟨100, 0⟩,
    total_price := some ⟨1000, 0⟩, source_row_indices := [1, 1],
    computed_total := some ⟨1000, 0⟩, total_matches := true }

/-- Scenario A followed by a continuation row carrying only extra
description text, and a subtotal row (Scenario C / D shapes). -/
def scenarioCD : List (List Cell) :=
  scenarioA ++
    [ [Cell.cnan, Cell.cstr "marke MB30", Cell.cnan, Cell.cnan, Cell.cnan, Cell.cnan],
      [Cell.cnan, Cell.cstr "UKUPNO", Cell.cnan, Cell.cnan, Cell.cnan, Cell.cstr "1000"] ]

/-- A sheet in which no row scores: header detection fails. -/
def scenarioE : List (List Cell) :=
  [[Cell.cstr "a", Cell.cstr "b", Cell.cstr "c"]]

/-! ## Semantic bridge: Dec versus ℚ -/

theorem Dec.toRat_zero : Dec.zero.toRat = 0 := by
  simp [Dec.toRat, Dec.zero]

theorem Dec.toRat_tol : Dec.tol.toRat = 1 / 100 := by
  norm_num [Dec.toRat, Dec.tol]

theorem Dec.pow_pos_aux (e : Nat) : (0 : ℚ) < (10 : ℚ) ^ e := by positivity

theorem Dec.beqNum_iff (a b : Dec) : a.beqNum b = true ↔ a.toRat = b.toRat := by
  rw [Dec.beqNum, Dec.toRat, Dec.toRat, decide_eq_true_iff,
    div_eq_div_iff (ne_of_gt (Dec.pow_pos_aux a.exp)) (ne_of_gt (Dec.pow_pos_aux b.exp))]
  constructor
  · intro h; exact_mod_cast h
  · intro h; exact_mod_cast h

theorem Dec.bleNum_iff (a b : Dec) : a.bleNum b = true ↔ a.toRat ≤ b.toRat := by
  rw [Dec.bleNum, Dec.toRat, Dec.toRat, decide_eq_true_iff,
    div_le_div_iff₀ (Dec.pow_pos_aux a.exp) (Dec.pow_pos_aux b.exp)]
  constructor
  · intro h; exact_mod_cast h
  · intro h; exact_mod_cast h

theorem Dec.toRat_mul (a b : Dec) : (a.mul b).toRat = a.toRat * b.toRat := by
  simp only [Dec.mul, Dec.toRat]
  push_cast
  rw [pow_add]
  field_simp

theorem Dec.toRat_sub (a b : Dec) : (a.sub b).toRat = a.toRat - b.toRat := by
  simp only [Dec.sub, Dec.toRat]
  push_cast
  rw [pow_add]
  field_simp
  ring

theorem Dec.toRat_absD (a : Dec) : a.absD.toRat = |a.toRat| := by
  simp only [Dec.absD, Dec.toRat]
  rw [abs_div, abs_of_pos (Dec.pow_pos_aux a.exp)]
  push_cast
  rfl

theorem isNoneOrZero_iff (o : Option Dec) :
    isNoneOrZero o = true ↔ (o = none ∨ ∃ d, o = some d ∧ d.toRat = 0) := by
  cases o with
  | none => simp [isNoneOrZero]
  | some d => simp [isNoneOrZero, Dec.beqNum_iff, Dec.toRat_zero]

theorem replaceSupChar_ne (c : Char) :
    replaceSupChar c ≠ '²' ∧ replaceSupChar c ≠ '³' := by
  unfold replaceSupChar
  by_cases h1 : c = '²'
  · simp [h1]
  · by_cases h2 : c = '³' <;> simp [h1, h2]

/-! ## Claims -/

/-- C1: parsing the workbook whose single sheet has the header row
["Poz.", "Opis", "JM", "Količina", "Jed. cena", "Iznos"] followed by the
data row ["1", "Beton", "m3", "10", "100", "1000"] produces exactly one
position with position_id "1", description "Beton", unit "m3",
quantity 10, unit_price 100, total_price 1000 and total_matches true. -/
theorem c1_scenarioA_single_position :
    parse_workbook [("Sheet1", scenarioA)] =
      [{ discipline := "Sheet1", sheet_name := "Sheet1",
         positions := [scenarioAPos], warnings := [] }] ∧
    scenarioAPos.position_id = "1" ∧ scenarioAPos.description = "Beton" ∧
    scenarioAPos.unit = "m3" ∧
    scenarioAPos.quantity.map Dec.toRat = some 10 ∧
    scenarioAPos.unit_price.map Dec.toRat = some 100 ∧
    scenarioAPos.total_price.map Dec.toRat = some 1000 ∧
    scenarioAPos.total_matches = true := by
  refine ⟨by decide, by decide, by decide, by decide, ?_, ?_, ?_, by decide⟩ <;>
    norm_num [scenarioAPos, Dec.toRat]

/-- C2: the integrity check always records
computed_total = (quantity or 0) × (unit_price or 0); when the declared
total is null or zero it copies computed_total into total_price and sets
total_matches; otherwise total_matches is true exactly when
|declared − computed| ≤ 0.01, and the declared total and computed_total
are both preserved. -/
theorem c2_numeric_integrity (p : BoQPosition) (ws : List String) :
    ((enforce_numeric_integrity p ws).1.computed_total).map Dec.toRat =
      some ((p.quantity.getD Dec.zero).toRat * (p.unit_price.getD Dec.zero).toRat) ∧
    ((p.total_price = none ∨ ∃ d, p.total_price = some d ∧ d.toRat = 0) →
      (enforce_numeric_integrity p ws).1.total_price =
          (enforce_numeric_integrity p ws).1.computed_total ∧
      (enforce_numeric_integrity p ws).1.total_matches = true) ∧
    (∀ d, p.total_price = some d → d.toRat ≠ 0 →
      ((enforce_numeric_integrity p ws).1.total_matches = true ↔
        |d.toRat - (p.quantity.getD Dec.zero).toRat * (p.unit_price.getD Dec.zero).toRat| ≤ 1 / 100) ∧
      (enforce_numeric_integrity p ws).1.total_price = some d ∧
      (enforce_numeric_integrity p ws).1.computed_total =
        some ((p.quantity.getD Dec.zero).mul (p.unit_price.getD Dec.zero))) := by
  unfold enforce_numeric_integrity
  by_cases hz : isNoneOrZero p.total_price = true
  · simp only [hz, if_true]
    refine ⟨?_, ?_, ?_⟩
    · simp [Dec.toRat_mul]
    · intro _; constructor <;> simp
    · intro d hd hdr
      exfalso
      rw [isNoneOrZero_iff] at hz
      rcases hz with h | ⟨d', hd', hz'⟩
      · rw [h] at hd; exact Option.noConfusion hd
      · rw [hd'] at hd
        exact hdr (by injection hd with h2; rw [h2] at hz'; exact hz')
  · rw [Bool.not_eq_true] at hz
    simp only [hz, Bool.false_eq_true, if_false]
    refine ⟨?_, ?_, ?_⟩
    · simp [Dec.toRat_mul]
    · intro hcond
      exfalso
      have : isNoneOrZero p.total_price = true := by
        rw [isNoneOrZero_iff]; exact hcond
      rw [this] at hz; exact Bool.noConfusion hz
    · intro d hd hdr
      refine ⟨?_, ?_, ?_⟩
      · simp only [hd, Option.getD_some, Dec.bleNum_iff, Dec.toRat_absD, Dec.toRat_sub,
          Dec.toRat_mul, Dec.toRat_tol]
      · simp [hd]
      · simp [hd]

/-- Witness for C2 at Scenario A's position (declared total 1000, non-zero). -/
theorem c2_numeric_integrity_witness :
    Dec.toRat ⟨1000, 0⟩ ≠ 0 ∧
    (((enforce_numeric_integrity scenarioAPos []).1.total_matches = true ↔
      |Dec.toRat ⟨1000, 0⟩ -
        (scenarioAPos.quantity.getD Dec.zero).toRat *
          (scenarioAPos.unit_price.getD Dec.zero).toRat| ≤ 1 / 100) ∧
    (enforce_numeric_integrity scenarioAPos []).1.total_price = some ⟨1000, 0⟩ ∧
    (enforce_numeric_integrity scenarioAPos []).1.computed_total =
      some ((scenarioAPos.quantity.getD Dec.zero).mul
        (scenarioAPos.unit_price.getD Dec.zero))) :=
  ⟨by norm_num [Dec.toRat],
    (c2_numeric_integrity scenarioAPos []).2.2 ⟨1000, 0⟩ rfl (by norm_num [Dec.toRat])⟩

/-- C9 counterexample: a NaN cell (an empty spreadsheet cell in pandas)
normalizes to the string "nan", not to the empty string. -/
theorem c9_nan_normalizes_to_nan :
    normalize_header_value Cell.cnan = "nan" ∧ normalize_header_value Cell.cnan ≠ "" := by
  decide

/-- C9 amended: the header normalizer is total; None yields "", a NaN cell
yields "nan", and any other value yields its text lowercased, trimmed and
with the superscripts ² and ³ rewritten, so the output never contains a
superscript digit. -/
theorem c9_normalizer_amended :
    normalize_header_value Cell.cnone = "" ∧
    normalize_header_value Cell.cnan = "nan" ∧
    (∀ s, normalize_header_value (Cell.cstr s) = replaceSup (pyLower (pyStrip s))) ∧
    (∀ z, normalize_header_value (Cell.cint z) = replaceSup (pyLower (pyStrip (toString z)))) ∧
    (∀ v, '²' ∉ (normalize_header_value v).data ∧ '³' ∉ (normalize_header_value v).data) := by
  refine ⟨rfl, by decide, fun s => rfl, fun z => rfl, fun v => ?_⟩
  cases v with
  | cnone => simp [normalize_header_value]
  | cnan => constructor <;> decide
  | cstr s =>
    simp only [normalize_header_value, replaceSup, List.mem_map]
    constructor <;> · rintro ⟨c, _, hc⟩; exact absurd hc (by
      first
        | exact (replaceSupChar_ne c).1
        | exact (replaceSupChar_ne c).2)
  | cint z =>
    simp only [normalize_header_value, replaceSup, List.mem_map]
    constructor <;> · rintro ⟨c, _, hc⟩; exact absurd hc (by
      first
        | exact (replaceSupChar_ne c).1
        | exact (replaceSupChar_ne c).2)

/-- Witness for C9 amended at the header text "m²". -/
theorem c9_normalizer_amended_witness :
    '²' ∉ (normalize_header_value (Cell.cstr "m²")).data :=
  (c9_normalizer_amended.2.2.2.2 (Cell.cstr "m²")).1

/-- C10: in the plain output record a null quantity / unit_price /
total_price is emitted as zero — indistinguishable from an explicit zero —
and computed_total is included exactly when total_matches is false and
computed_total is non-null, in which case it is passed through unchanged. -/
theorem c10_to_dict_zero_fill (p : BoQPosition) :
    BoQPosition.to_dict { p with quantity := none } =
      BoQPosition.to_dict { p with quantity := some Dec.zero } ∧
    BoQPosition.to_dict { p with unit_price := none } =
      BoQPosition.to_dict { p with unit_price := some Dec.zero } ∧
    BoQPosition.to_dict { p with total_price := none } =
      BoQPosition.to_dict { p with total_price := some Dec.zero } ∧
    (p.quantity = none → ((BoQPosition.to_dict p).quantity).toRat = 0) ∧
    (p.unit_price = none → ((BoQPosition.to_dict p).unit_price).toRat = 0) ∧
    (p.total_price = none → ((BoQPosition.to_dict p).total_price).toRat = 0) ∧
    ((BoQPosition.to_dict p).computed_total ≠ none ↔
      p.total_matches = false ∧ p.computed_total ≠ none) ∧
    ((BoQPosition.to_dict p).computed_total ≠ none →
      (BoQPosition.to_dict p).computed_total = p.computed_total) := by
  refine ⟨rfl, rfl, rfl, ?_, ?_, ?_, ?_, ?_⟩
  · intro h; simp [BoQPosition.to_dict, h, Dec.toRat_zero]
  · intro h; simp [BoQPosition.to_dict, h, Dec.toRat_zero]
  · intro h; simp [BoQPosition.to_dict, h, Dec.toRat_zero]
  · by_cases hc : p.total_matches = false ∧ p.computed_total ≠ none
    · simp [BoQPosition.to_dict, hc]
    · simp only [BoQPosition.to_dict, if_neg hc]
      simp [hc]
  · intro h
    by_cases hc : p.total_matches = false ∧ p.computed_total ≠ none
    · simp [BoQPosition.to_dict, hc]
    · exfalso; apply h; simp [BoQPosition.to_dict, if_neg hc]

/-- C8: a sheet whose header row cannot be detected yields a
DisciplineResult with no positions and the single warning
"Header row could not be detected", and the driver still produces one
result per sheet of the workbook. -/
theorem c8_header_not_detected (sheets : List (String × List (List Cell))) (k : Nat)
    (nm : String) (raw : List (List Cell))
    (hk : sheets[k]? = some (nm, raw))
    (hh : find_header_row (toDF raw) = none) :
    (parse_workbook sheets)[k]? =
      some { discipline := pyStrip nm, sheet_name := nm, positions := [],
             warnings := ["Header row could not be detected"] } ∧
    (parse_workbook sheets).length = sheets.length := by
  constructor
  · rw [parse_workbook, List.getElem?_map, hk]
    simp [hh]
  · simp [parse_workbook]

/-- Witness for C8 at a one-sheet workbook with no scoring row. -/
theorem c8_header_not_detected_witness :
    ([("S1", scenarioE)] : List (String × List (List Cell)))[0]? = some ("S1", scenarioE) ∧
    find_header_row (toDF scenarioE) = none ∧
    (parse_workbook [("S1", scenarioE)])[0]? =
      some { discipline := pyStrip "S1", sheet_name := "S1", positions := [],
             warnings := ["Header row could not be detected"] } :=
  ⟨rfl, by decide,
    (c8_header_not_detected [("S1", scenarioE)] 0 "S1" scenarioE rfl (by decide)).1⟩

/-- Witness for C10 at a mismatching position with a null quantity. -/
theorem c10_to_dict_zero_fill_witness :
    ((BoQPosition.to_dict
      { scenarioAPos with quantity := none, total_matches := false }).quantity).toRat = 0 ∧
    (BoQPosition.to_dict
        { scenarioAPos with quantity := none, total_matches := false }).computed_total =
      ({ scenarioAPos with quantity := none, total_matches := false } : BoQPosition).computed_total :=
  ⟨(c10_to_dict_zero_fill
      { scenarioAPos with quantity := none, total_matches := false }).2.2.2.1 rfl,
   (c10_to_dict_zero_fill
      { scenarioAPos with quantity := none, total_matches := false }).2.2.2.2.2.2.2 (by decide)⟩


/-! ## C3: totality and range of the inferred column mapping -/

/-- All assigned fields of a partial mapping are below b. -/
def FieldMap.below (m : FieldMap) (b : Nat) : Prop :=
  (∀ j ∈ m.position_id, j < b) ∧ (∀ j ∈ m.description, j < b) ∧
  (∀ j ∈ m.unit, j < b) ∧ (∀ j ∈ m.quantity, j < b) ∧
  (∀ j ∈ m.unit_price, j < b) ∧ (∀ j ∈ m.total_price, j < b)

theorem variantUpdate_below (m : FieldMap) (norm : String) (idx b : Nat)
    (hm : m.below b) (hidx : idx < b) : (variantUpdate m norm idx).below b := by
  obtain ⟨h1, h2, h3, h4, h5, h6⟩ := hm
  refine ⟨?_, ?_, ?_, ?_, ?_, ?_⟩ <;>
    · intro j hj
      simp only [variantUpdate] at hj
      split at hj <;> simp_all

theorem matchColsAux_below (hs : List Cell) (i : Nat) (m : FieldMap) (b : Nat)
    (hle : i + hs.length ≤ b) (hm : m.below b) : (matchColsAux hs i m).below b := by
  induction hs generalizing i m with
  | nil => exact hm
  | cons h rest ih =>
    simp only [matchColsAux]
    by_cases he : normalize_header_value h = ""
    · simp only [if_pos he]
      exact ih (i + 1) m (by simp at hle ⊢; omega) hm
    · simp only [if_neg he]
      exact ih (i + 1) _ (by simp at hle ⊢; omega)
        (variantUpdate_below m _ i b hm (by simp at hle; omega))

theorem match_columns_by_name_below (headers : List Cell) :
    (match_columns_by_name headers).below headers.length := by
  unfold match_columns_by_name
  refine matchColsAux_below headers 0 {} headers.length (by omega) ?_
  refine ⟨?_, ?_, ?_, ?_, ?_, ?_⟩ <;> · intro j hj; simp at hj

theorem foldl_argmax_lt (f : Nat → Nat) (n : Nat) (l : List Nat) (acc : Nat)
    (hacc : acc < n) (hl : ∀ x ∈ l, x < n) :
    l.foldl (fun best c => if f c > f best then c else best) acc < n := by
  induction l generalizing acc with
  | nil => exact hacc
  | cons x rest ih =>
    simp only [List.foldl_cons]
    by_cases hx : f x > f acc
    · exact ih (if f x > f acc then x else acc)
        (by rw [if_pos hx]; exact hl x (by simp))
        (fun y hy => hl y (by simp [hy]))
    · exact ih _ (by rw [if_neg hx]; exact hacc) (fun y hy => hl y (by simp [hy]))

theorem firstArgmax_lt (f : Nat → Nat) (n : Nat) (hn : 0 < n) : firstArgmax f n < n :=
  foldl_argmax_lt f n (List.range n) 0 hn (fun x hx => List.mem_range.mp hx)

theorem le_foldl_max (rows : List (List Cell)) (a : Nat) :
    a ≤ rows.foldl (fun acc r => max acc r.length) a := by
  induction rows generalizing a with
  | nil => exact Nat.le_refl a
  | cons r rest ih =>
    exact Nat.le_trans (Nat.le_max_left a r.length) (ih (max a r.length))

theorem mem_le_foldl_max (rows : List (List Cell)) (a : Nat) (r : List Cell)
    (hr : r ∈ rows) :
    r.length ≤ rows.foldl (fun acc q => max acc q.length) a := by
  induction rows generalizing a with
  | nil => cases hr
  | cons x rest ih =>
    rcases List.mem_cons.mp hr with h | h
    · subst h
      exact Nat.le_trans (Nat.le_max_right a r.length) (le_foldl_max rest _)
    · simp only [List.foldl_cons]
      exact ih _ h

theorem length_le_maxWidth (rows : List (List Cell)) (r : List Cell) (hr : r ∈ rows) :
    r.length ≤ maxWidth rows :=
  mem_le_foldl_max rows 0 r hr

theorem toDF_row_length (raw : List (List Cell)) (r : List Cell) (hr : r ∈ toDF raw) :
    r.length = maxWidth raw := by
  unfold toDF at hr
  rcases List.mem_map.mp hr with ⟨orig, horig, heq⟩
  subst heq
  simp only [List.length_append, List.length_replicate]
  have := length_le_maxWidth raw orig horig
  omega

theorem findHeaderAux_lt (rows : List (List Cell)) (i : Nat) (best : Option Nat)
    (s : Nat) (h : Nat) (hbest : ∀ j ∈ best, j < i)
    (hres : findHeaderAux rows i best s = some h) : h < i + rows.length := by
  induction rows generalizing i best s with
  | nil =>
    simp only [findHeaderAux] at hres
    exact Nat.lt_of_lt_of_le (hbest h hres) (by omega)
  | cons row rest ih =>
    simp only [findHeaderAux] at hres
    by_cases hsp : ((row.map normalize_header_value).filter (fun c => c ≠ "")).length < 3
    · rw [if_pos hsp] at hres
      have := ih (i + 1) best s (fun j hj => Nat.lt_succ_of_lt (hbest j hj)) hres
      simp only [List.length_cons]
      omega
    · rw [if_neg hsp] at hres
      set score := rowScore (row.map normalize_header_value) with hscore
      by_cases h4 : score ≥ 4
      · rw [if_pos h4] at hres
        by_cases hgt : score > s
        · simp only [if_pos hgt] at hres
          injection hres with h5
          simp only [List.length_cons]; omega
        · simp only [if_neg hgt] at hres
          have := hbest h hres
          simp only [List.length_cons]; omega
      · rw [if_neg h4] at hres
        by_cases hgt : score > s
        · simp only [if_pos hgt] at hres
          have := ih (i + 1) (some i) score
            (by intro j hj; simp at hj; omega) hres
          simp only [List.length_cons]; omega
        · simp only [if_neg hgt] at hres
          have := ih (i + 1) best s (fun j hj => Nat.lt_succ_of_lt (hbest j hj)) hres
          simp only [List.length_cons]; omega

theorem find_header_row_lt (rows : List (List Cell)) (h : Nat)
    (hres : find_header_row rows = some h) : h < rows.length := by
  have := findHeaderAux_lt rows 0 none 0 h (by intro j hj; cases hj) hres
  omega

theorem findHeaderAux_wide (rows : List (List Cell)) (i s h : Nat)
    (hres : findHeaderAux rows i none s = some h) :
    ∃ row ∈ rows, 3 ≤ ((row.map normalize_header_value).filter (fun c => c ≠ "")).length := by
  induction rows generalizing i s with
  | nil => simp [findHeaderAux] at hres
  | cons row rest ih =>
    simp only [findHeaderAux] at hres
    by_cases hsp : ((row.map normalize_header_value).filter (fun c => c ≠ "")).length < 3
    · rw [if_pos hsp] at hres
      rcases ih (i + 1) s hres with ⟨r, hr, h3⟩
      exact ⟨r, List.mem_cons_of_mem row hr, h3⟩
    · exact ⟨row, List.mem_cons_self row rest, by omega⟩

theorem find_header_row_wide (rows : List (List Cell)) (h : Nat)
    (hres : find_header_row rows = some h) :
    ∃ row ∈ rows, 3 ≤ row.length := by
  rcases findHeaderAux_wide rows 0 0 h hres with ⟨row, hr, h3⟩
  refine ⟨row, hr, ?_⟩
  have hle : ((row.map normalize_header_value).filter (fun c => c ≠ "")).length
      ≤ (row.map normalize_header_value).length := List.length_filter_le _ _
  simp only [List.length_map] at hle
  omega

theorem inferUnitCol_lt (rows : List (List Cell)) (ncols header_idx : Nat) (m : FieldMap)
    (hm : ∀ j ∈ m.unit, j < ncols) (hn : 0 < ncols) :
    inferUnitCol rows ncols header_idx m < ncols := by
  unfold inferUnitCol
  cases hu : m.unit with
  | some u => exact hm u hu
  | none => exact firstArgmax_lt _ _ hn

theorem inferPositionIdCol_lt (rows : List (List Cell)) (ncols header_idx : Nat) (m : FieldMap)
    (hm : ∀ j ∈ m.position_id, j < ncols) (hn : 0 < ncols) :
    inferPositionIdCol rows ncols header_idx m < ncols := by
  unfold inferPositionIdCol
  cases hu : m.position_id with
  | some u => exact hm u hu
  | none => exact firstArgmax_lt _ _ hn

/-- C3: for every sheet in which a header row is detected, the column
mapping the driver builds (name matching plus structural inference)
assigns all six canonical fields an index strictly below the sheet's
column count — the mapping is total with every index in range. -/
theorem c3_mapping_total_in_range (raw : List (List Cell)) (h : Nat)
    (hfind : find_header_row (toDF raw) = some h) :
    (sheetColumnMapping raw h).position_id < maxWidth raw ∧
    (sheetColumnMapping raw h).description < maxWidth raw ∧
    (sheetColumnMapping raw h).unit < maxWidth raw ∧
    (sheetColumnMapping raw h).quantity < maxWidth raw ∧
    (sheetColumnMapping raw h).unit_price < maxWidth raw ∧
    (sheetColumnMapping raw h).total_price < maxWidth raw := by
  -- the witness row passing the sparseness bar shows the sheet is at least 3 wide
  have hn : 0 < maxWidth raw := by
    rcases find_header_row_wide (toDF raw) h hfind with ⟨row, hrow, h3⟩
    have := toDF_row_length raw row hrow
    omega
  -- the header row the driver feeds to match_columns_by_name has full width
  have hlen : ((toDF raw).getD h []).length = maxWidth raw := by
    have hlt : h < (toDF raw).length := find_header_row_lt _ h hfind
    rw [List.getD_eq_getElem _ _ hlt]
    exact toDF_row_length raw _ (List.getElem_mem hlt)
  have hbelow : (match_columns_by_name ((toDF raw).getD h [])).below (maxWidth raw) := by
    rw [← hlen]
    exact match_columns_by_name_below _
  obtain ⟨b1, b2, b3, b4, b5, b6⟩ := hbelow
  set n := maxWidth raw
  set m := match_columns_by_name ((toDF raw).getD h [])
  have hunit : inferUnitCol (toDF raw) n h m < n := inferUnitCol_lt _ _ _ _ b3 hn
  have hquant : inferQuantityCol (inferUnitCol (toDF raw) n h m) m < n := by
    unfold inferQuantityCol
    cases hq : m.quantity with
    | some q => exact b4 q hq
    | none =>
      show (if inferUnitCol (toDF raw) n h m > 0 then inferUnitCol (toDF raw) n h m - 1
        else inferUnitCol (toDF raw) n h m) < n
      split <;> omega
  have htp : inferTotalPriceCol (inferUnitCol (toDF raw) n h m) n m < n := by
    unfold inferTotalPriceCol
    cases ht : m.total_price with
    | some t => exact b6 t ht
    | none =>
      show (if inferUnitCol (toDF raw) n h m + 1 < n then inferUnitCol (toDF raw) n h m + 1
        else inferUnitCol (toDF raw) n h m) < n
      split <;> omega
  have hup : inferUnitPriceCol (inferQuantityCol (inferUnitCol (toDF raw) n h m) m)
      (inferUnitCol (toDF raw) n h m) n m < n := by
    unfold inferUnitPriceCol
    cases hu : m.unit_price with
    | some u => exact b5 u hu
    | none =>
      show (if inferQuantityCol (inferUnitCol (toDF raw) n h m) m + 1 ≠ inferUnitCol (toDF raw) n h m
          then min (inferQuantityCol (inferUnitCol (toDF raw) n h m) m + 1) (n - 1)
          else inferUnitCol (toDF raw) n h m) < n
      split <;> omega
  have hpid : inferPositionIdCol (toDF raw) n h m < n := inferPositionIdCol_lt _ _ _ _ b1 hn
  have hdesc : inferDescriptionCol (inferPositionIdCol (toDF raw) n h m) n m < n := by
    unfold inferDescriptionCol
    cases hd : m.description with
    | some d => exact b2 d hd
    | none =>
      show min (inferPositionIdCol (toDF raw) n h m + 1) (n - 1) < n
      omega
  exact ⟨hpid, hdesc, hunit, hquant, hup, htp⟩

/-- Witness for C3 at Scenario A (header in row 0, width 6). -/
theorem c3_mapping_total_in_range_witness :
    find_header_row (toDF scenarioA) = some 0 ∧
    (sheetColumnMapping scenarioA 0).position_id < maxWidth scenarioA ∧
    (sheetColumnMapping scenarioA 0).total_price < maxWidth scenarioA :=
  ⟨by decide,
   (c3_mapping_total_in_range scenarioA 0 (by decide)).1,
   (c3_mapping_total_in_range scenarioA 0 (by decide)).2.2.2.2.2⟩

/-! ## C4: first non-empty / non-zero value wins -/

theorem fillUnit_quantity (cur : BoQPosition) (t : String) :
    (fillUnit cur t).quantity = cur.quantity := by
  unfold fillUnit; split <;> rfl

theorem fillUnit_unit_price (cur : BoQPosition) (t : String) :
    (fillUnit cur t).unit_price = cur.unit_price := by
  unfold fillUnit; split <;> rfl

theorem fillUnit_total_price (cur : BoQPosition) (t : String) :
    (fillUnit cur t).total_price = cur.total_price := by
  unfold fillUnit; split <;> rfl

theorem fillQuantity_unit (cur : BoQPosition) (v : Option Dec) :
    (fillQuantity cur v).unit = cur.unit := by
  unfold fillQuantity; cases v <;> first
    | rfl
    | (split <;> first
        | rfl
        | (split <;> rfl))

theorem fillQuantity_unit_price (cur : BoQPosition) (v : Option Dec) :
    (fillQuantity cur v).unit_price = cur.unit_price := by
  unfold fillQuantity; cases v <;> first
    | rfl
    | (split <;> first
        | rfl
        | (split <;> rfl))

theorem fillQuantity_total_price (cur : BoQPosition) (v : Option Dec) :
    (fillQuantity cur v).total_price = cur.total_price := by
  unfold fillQuantity; cases v <;> first
    | rfl
    | (split <;> first
        | rfl
        | (split <;> rfl))

theorem fillUnitPrice_unit (cur : BoQPosition) (v : Option Dec) :
    (fillUnitPrice cur v).unit = cur.unit := by
  unfold fillUnitPrice; cases v <;> first
    | rfl
    | (split <;> first
        | rfl
        | (split <;> rfl))

theorem fillUnitPrice_quantity (cur : BoQPosition) (v : Option Dec) :
    (fillUnitPrice cur v).quantity = cur.quantity := by
  unfold fillUnitPrice; cases v <;> first
    | rfl
    | (split <;> first
        | rfl
        | (split <;> rfl))

theorem fillUnitPrice_total_price (cur : BoQPosition) (v : Option Dec) :
    (fillUnitPrice cur v).total_price = cur.total_price := by
  unfold fillUnitPrice; cases v <;> first
    | rfl
    | (split <;> first
        | rfl
        | (split <;> rfl))

theorem fillTotalPrice_unit (cur : BoQPosition) (v : Option Dec) :
    (fillTotalPrice cur v).unit = cur.unit := by
  unfold fillTotalPrice; cases v <;> first
    | rfl
    | (split <;> first
        | rfl
        | (split <;> rfl))

theorem fillTotalPrice_quantity (cur : BoQPosition) (v : Option Dec) :
    (fillTotalPrice cur v).quantity = cur.quantity := by
  unfold fillTotalPrice; cases v <;> first
    | rfl
    | (split <;> first
        | rfl
        | (split <;> rfl))

theorem fillTotalPrice_unit_price (cur : BoQPosition) (v : Option Dec) :
    (fillTotalPrice cur v).unit_price = cur.unit_price := by
  unfold fillTotalPrice; cases v <;> first
    | rfl
    | (split <;> first
        | rfl
        | (split <;> rfl))

theorem fillUnit_keep (cur : BoQPosition) (t : String) (h : cur.unit ≠ "") :
    (fillUnit cur t).unit = cur.unit := by
  unfold fillUnit
  split_ifs with hc
  · exact absurd hc.2.2 h
  · rfl

theorem fillUnit_changed (cur : BoQPosition) (t : String)
    (h : (fillUnit cur t).unit ≠ cur.unit) :
    cur.unit = "" ∧ (fillUnit cur t).unit = t ∧ t ∈ ALLOWED_UNITS ∧ t ≠ "" := by
  revert h
  unfold fillUnit
  split_ifs with hc
  · intro _; exact ⟨hc.2.2, rfl, hc.2.1, hc.1⟩
  · intro h; exact absurd rfl h

theorem fillQuantity_keep (cur : BoQPosition) (v : Option Dec)
    (h : ∃ d, cur.quantity = some d ∧ d.toRat ≠ 0) :
    (fillQuantity cur v).quantity = cur.quantity := by
  rcases h with ⟨d, hd, hdr⟩
  unfold fillQuantity
  cases v with
  | none => rfl
  | some q =>
    split_ifs with hc
    · rcases (isNoneOrZero_iff _).mp hc with h0 | ⟨d', hd', h0⟩
      · rw [h0] at hd; exact Option.noConfusion hd
      · rw [hd'] at hd
        injection hd with h2
        exact absurd (h2 ▸ h0) hdr
    · rfl

theorem fillQuantity_changed (cur : BoQPosition) (v : Option Dec)
    (h : (fillQuantity cur v).quantity ≠ cur.quantity) :
    (cur.quantity = none ∨ ∃ d, cur.quantity = some d ∧ d.toRat = 0) ∧
    ∃ w, v = some w ∧ (fillQuantity cur v).quantity = some w := by
  revert h
  unfold fillQuantity
  cases v with
  | none => intro h; exact absurd rfl h
  | some q =>
    split_ifs with hc
    · intro _
      refine ⟨?_, q, rfl, rfl⟩
      rcases (isNoneOrZero_iff _).mp hc with h0 | ⟨d', hd', h0⟩
      · exact Or.inl h0
      · exact Or.inr ⟨d', hd', h0⟩
    · intro h; exact absurd rfl h

theorem fillUnitPrice_keep (cur : BoQPosition) (v : Option Dec)
    (h : ∃ d, cur.unit_price = some d ∧ d.toRat ≠ 0) :
    (fillUnitPrice cur v).unit_price = cur.unit_price := by
  rcases h with ⟨d, hd, hdr⟩
  unfold fillUnitPrice
  cases v with
  | none => rfl
  | some q =>
    split_ifs with hc
    · rcases (isNoneOrZero_iff _).mp hc with h0 | ⟨d', hd', h0⟩
      · rw [h0] at hd; exact Option.noConfusion hd
      · rw [hd'] at hd
        injection hd with h2
        exact absurd (h2 ▸ h0) hdr
    · rfl

theorem fillUnitPrice_changed (cur : BoQPosition) (v : Option Dec)
    (h : (fillUnitPrice cur v).unit_price ≠ cur.unit_price) :
    (cur.unit_price = none ∨ ∃ d, cur.unit_price = some d ∧ d.toRat = 0) ∧
    ∃ w, v = some w ∧ (fillUnitPrice cur v).unit_price = some w := by
  revert h
  unfold fillUnitPrice
  cases v with
  | none => intro h; exact absurd rfl h
  | some q =>
    split_ifs with hc
    · intro _
      refine ⟨?_, q, rfl, rfl⟩
      rcases (isNoneOrZero_iff _).mp hc with h0 | ⟨d', hd', h0⟩
      · exact Or.inl h0
      · exact Or.inr ⟨d', hd', h0⟩
    · intro h; exact absurd rfl h

theorem fillTotalPrice_keep (cur : BoQPosition) (v : Option Dec)
    (h : ∃ d, cur.total_price = some d ∧ d.toRat ≠ 0) :
    (fillTotalPrice cur v).total_price = cur.total_price := by
  rcases h with ⟨d, hd, hdr⟩
  unfold fillTotalPrice
  cases v with
  | none => rfl
  | some q =>
    split_ifs with hc
    · rcases (isNoneOrZero_iff _).mp hc with h0 | ⟨d', hd', h0⟩
      · rw [h0] at hd; exact Option.noConfusion hd
      · rw [hd'] at hd
        injection hd with h2
        exact absurd (h2 ▸ h0) hdr
    · rfl

theorem fillTotalPrice_changed (cur : BoQPosition) (v : Option Dec)
    (h : (fillTotalPrice cur v).total_price ≠ cur.total_price) :
    (cur.total_price = none ∨ ∃ d, cur.total_price = some d ∧ d.toRat = 0) ∧
    ∃ w, v = some w ∧ (fillTotalPrice cur v).total_price = some w := by
  revert h
  unfold fillTotalPrice
  cases v with
  | none => intro h; exact absurd rfl h
  | some q =>
    split_ifs with hc
    · intro _
      refine ⟨?_, q, rfl, rfl⟩
      rcases (isNoneOrZero_iff _).mp hc with h0 | ⟨d', hd', h0⟩
      · exact Or.inl h0
      · exact Or.inr ⟨d', hd', h0⟩
    · intro h; exact absurd rfl h

/-- C4: on a continuation row, each of unit / quantity / unit_price /
total_price of the current position is filled from the row's non-null
(non-empty) value only if it is still unset or currently zero; a field
already holding a non-zero (non-empty) value is left unchanged. -/
theorem c4_fill_once (mapping : ColumnMapping) (disc : String) (st : ParseState)
    (i : Nat) (row : List Cell) (cur : BoQPosition)
    (hcur : st.current = some cur)
    (ht : is_total_row row = false)
    (hid : clean_text (row.getD mapping.position_id Cell.cnan) = "") :
    ∃ cur', (parseStep mapping disc st i row).current = some cur' ∧
      (cur.unit ≠ "" → cur'.unit = cur.unit) ∧
      (cur'.unit ≠ cur.unit → cur.unit = "" ∧ cur'.unit ∈ ALLOWED_UNITS ∧ cur'.unit ≠ "") ∧
      ((∃ d, cur.quantity = some d ∧ d.toRat ≠ 0) → cur'.quantity = cur.quantity) ∧
      (cur'.quantity ≠ cur.quantity →
        (cur.quantity = none ∨ ∃ d, cur.quantity = some d ∧ d.toRat = 0) ∧
        ∃ w, (if mapping.quantity < row.length then
            parse_decimal (row.getD mapping.quantity Cell.cnan) else none) = some w ∧
          cur'.quantity = some w) ∧
      ((∃ d, cur.unit_price = some d ∧ d.toRat ≠ 0) → cur'.unit_price = cur.unit_price) ∧
      (cur'.unit_price ≠ cur.unit_price →
        (cur.unit_price = none ∨ ∃ d, cur.unit_price = some d ∧ d.toRat = 0) ∧
        ∃ w, (if mapping.unit_price < row.length then
            parse_decimal (row.getD mapping.unit_price Cell.cnan) else none) = some w ∧
          cur'.unit_price = some w) ∧
      ((∃ d, cur.total_price = some d ∧ d.toRat ≠ 0) → cur'.total_price = cur.total_price) ∧
      (cur'.total_price ≠ cur.total_price →
        (cur.total_price = none ∨ ∃ d, cur.total_price = some d ∧ d.toRat = 0) ∧
        ∃ w, (if mapping.total_price < row.length then
            parse_decimal (row.getD mapping.total_price Cell.cnan) else none) = some w ∧
          cur'.total_price = some w) := by
  unfold parseStep
  simp only [ht, Bool.false_eq_true, if_false, hid, ne_eq, not_true_eq_false,
    reduceIte, hcur]
  set cur1 : BoQPosition :=
    { cur with source_row_indices := cur.source_row_indices ++ [i] } with hc1
  set U := (if mapping.unit < row.length then
    normalize_header_value (row.getD mapping.unit Cell.cnan) else "") with hU
  set Q := (if mapping.quantity < row.length then
    parse_decimal (row.getD mapping.quantity Cell.cnan) else none) with hQ
  set UP := (if mapping.unit_price < row.length then
    parse_decimal (row.getD mapping.unit_price Cell.cnan) else none) with hUP
  set TP := (if mapping.total_price < row.length then
    parse_decimal (row.getD mapping.total_price Cell.cnan) else none) with hTP
  have e0 : (fillUnit cur1 U).quantity = cur.quantity := fillUnit_quantity _ _
  have e0u : cur1.unit = cur.unit := rfl
  have e1 : (fillUnit cur1 U).unit_price = cur.unit_price := fillUnit_unit_price _ _
  have e2 : (fillQuantity (fillUnit cur1 U) Q).unit_price = cur.unit_price := by
    rw [fillQuantity_unit_price]; exact e1
  have e3 : (fillUnitPrice (fillQuantity (fillUnit cur1 U) Q) UP).total_price
      = cur.total_price := by
    rw [fillUnitPrice_total_price, fillQuantity_total_price]
    exact fillUnit_total_price _ _
  refine ⟨_, rfl, ?_, ?_, ?_, ?_, ?_, ?_, ?_, ?_⟩
  · intro h
    rw [fillTotalPrice_unit, fillUnitPrice_unit, fillQuantity_unit]
    exact fillUnit_keep _ _ h
  · intro h
    rw [fillTotalPrice_unit, fillUnitPrice_unit, fillQuantity_unit] at h ⊢
    rcases fillUnit_changed _ _ h with ⟨h1, h2, h3, h4⟩
    exact ⟨h1, by rw [h2]; exact h3, by rw [h2]; exact h4⟩
  · intro h
    rw [fillTotalPrice_quantity, fillUnitPrice_quantity]
    exact (fillQuantity_keep _ _ (by rw [e0]; exact h)).trans e0
  · intro h
    rw [fillTotalPrice_quantity, fillUnitPrice_quantity] at h ⊢
    have h2 : (fillQuantity (fillUnit cur1 U) Q).quantity ≠ (fillUnit cur1 U).quantity := by
      rw [e0]; exact h
    rcases fillQuantity_changed _ _ h2 with ⟨h3, w, hw, hw2⟩
    rw [e0] at h3
    exact ⟨h3, w, hw, hw2⟩
  · intro h
    rw [fillTotalPrice_unit_price]
    exact (fillUnitPrice_keep _ _ (by rw [e2]; exact h)).trans e2
  · intro h
    rw [fillTotalPrice_unit_price] at h ⊢
    have h2 : (fillUnitPrice (fillQuantity (fillUnit cur1 U) Q) UP).unit_price
        ≠ (fillQuantity (fillUnit cur1 U) Q).unit_price := by
      rw [e2]; exact h
    rcases fillUnitPrice_changed _ _ h2 with ⟨h3, w, hw, hw2⟩
    rw [e2] at h3
    exact ⟨h3, w, hw, hw2⟩
  · intro h
    exact (fillTotalPrice_keep _ _ (by rw [e3]; exact h)).trans e3
  · intro h
    have h2 : (fillTotalPrice (fillUnitPrice (fillQuantity (fillUnit cur1 U) Q) UP) TP).total_price
        ≠ (fillUnitPrice (fillQuantity (fillUnit cur1 U) Q) UP).total_price := by
      rw [e3]; exact h
    rcases fillTotalPrice_changed _ _ h2 with ⟨h3, w, hw, hw2⟩
    rw [e3] at h3
    exact ⟨h3, w, hw, hw2⟩

def stdMapping : ColumnMapping := ⟨0, 1, 2, 3, 4, 5⟩

def c4Row : List Cell :=
  [Cell.cnan, Cell.cstr "marke MB30", Cell.cnan, Cell.cnan, Cell.cnan, Cell.cnan]

def c4State : ParseState :=
  { positions := [], warnings := [], current := some scenarioAPos,
    description_parts := ["Beton"] }

/-- Witness for C4: a pure-description continuation row after Scenario A
leaves all numeric fields of the accumulated position unchanged. -/
theorem c4_fill_once_witness :
    ∃ cur', (parseStep stdMapping "Sheet1" c4State 2 c4Row).current = some cur' ∧
      (scenarioAPos.unit ≠ "" → cur'.unit = scenarioAPos.unit) ∧
      (cur'.unit ≠ scenarioAPos.unit →
        scenarioAPos.unit = "" ∧ cur'.unit ∈ ALLOWED_UNITS ∧ cur'.unit ≠ "") ∧
      ((∃ d, scenarioAPos.quantity = some d ∧ d.toRat ≠ 0) →
        cur'.quantity = scenarioAPos.quantity) ∧
      (cur'.quantity ≠ scenarioAPos.quantity →
        (scenarioAPos.quantity = none ∨ ∃ d, scenarioAPos.quantity = some d ∧ d.toRat = 0) ∧
        ∃ w, (if stdMapping.quantity < c4Row.length then
            parse_decimal (c4Row.getD stdMapping.quantity Cell.cnan) else none) = some w ∧
          cur'.quantity = some w) ∧
      ((∃ d, scenarioAPos.unit_price = some d ∧ d.toRat ≠ 0) →
        cur'.unit_price = scenarioAPos.unit_price) ∧
      (cur'.unit_price ≠ scenarioAPos.unit_price →
        (scenarioAPos.unit_price = none ∨ ∃ d, scenarioAPos.unit_price = some d ∧ d.toRat = 0) ∧
        ∃ w, (if stdMapping.unit_price < c4Row.length then
            parse_decimal (c4Row.getD stdMapping.unit_price Cell.cnan) else none) = some w ∧
          cur'.unit_price = some w) ∧
      ((∃ d, scenarioAPos.total_price = some d ∧ d.toRat ≠ 0) →
        cur'.total_price = scenarioAPos.total_price) ∧
      (cur'.total_price ≠ scenarioAPos.total_price →
        (scenarioAPos.total_price = none ∨ ∃ d, scenarioAPos.total_price = some d ∧ d.toRat = 0) ∧
        ∃ w, (if stdMapping.total_price < c4Row.length then
            parse_decimal (c4Row.getD stdMapping.total_price Cell.cnan) else none) = some w ∧
          cur'.total_price = some w) :=
  c4_fill_once stdMapping "Sheet1" c4State 2 c4Row scenarioAPos rfl (by decide) (by decide)

/-! ## C6: total rows are inert -/

theorem parseStep_total (mapping : ColumnMapping) (disc : String) (st : ParseState)
    (i : Nat) (row : List Cell) (ht : is_total_row row = true) :
    parseStep mapping disc st i row = st := by
  unfold parseStep
  simp [ht]

theorem fillUnit_indices (cur : BoQPosition) (t : String) :
    (fillUnit cur t).source_row_indices = cur.source_row_indices := by
  unfold fillUnit; split <;> rfl

theorem fillQuantity_indices (cur : BoQPosition) (v : Option Dec) :
    (fillQuantity cur v).source_row_indices = cur.source_row_indices := by
  unfold fillQuantity
  cases v <;> first
    | rfl
    | (split <;> first
        | rfl
        | (split <;> rfl))

theorem fillUnitPrice_indices (cur : BoQPosition) (v : Option Dec) :
    (fillUnitPrice cur v).source_row_indices = cur.source_row_indices := by
  unfold fillUnitPrice
  cases v <;> first
    | rfl
    | (split <;> first
        | rfl
        | (split <;> rfl))

theorem fillTotalPrice_indices (cur : BoQPosition) (v : Option Dec) :
    (fillTotalPrice cur v).source_row_indices = cur.source_row_indices := by
  unfold fillTotalPrice
  cases v <;> first
    | rfl
    | (split <;> first
        | rfl
        | (split <;> rfl))

theorem enforce_indices (p : BoQPosition) (ws : List String) :
    (enforce_numeric_integrity p ws).1.source_row_indices = p.source_row_indices := by
  by_cases hz : isNoneOrZero p.total_price = true
  · simp [enforce_numeric_integrity, hz]
  · simp [enforce_numeric_integrity, hz]

theorem finalize_mem (disc : String) (cur : BoQPosition) (parts : List String)
    (pos : List BoQPosition) (ws : List String) (p : BoQPosition)
    (hp : p ∈ (finalizeCurrent disc cur parts pos ws).1) :
    p ∈ pos ∨ p.source_row_indices = cur.source_row_indices := by
  unfold finalizeCurrent at hp
  simp only [List.mem_append, List.mem_singleton] at hp
  rcases hp with hp | hp
  · exact Or.inl hp
  · right
    rw [hp, enforce_indices]

/-- An index j is recorded somewhere in the parse state. -/
def StateIdx (st : ParseState) (j : Nat) : Prop :=
  ∃ p, (p ∈ st.positions ∨ st.current = some p) ∧ j ∈ p.source_row_indices

theorem parseStep_stateIdx (mapping : ColumnMapping) (disc : String) (st : ParseState)
    (i : Nat) (row : List Cell) (j : Nat)
    (hj : StateIdx (parseStep mapping disc st i row) j) :
    StateIdx st j ∨ (j = i ∧ is_total_row row = false) := by
  by_cases ht : is_total_row row = true
  · rw [parseStep_total mapping disc st i row ht] at hj
    exact Or.inl hj
  · rw [Bool.not_eq_true] at ht
    unfold parseStep at hj
    simp only [ht, Bool.false_eq_true, if_false] at hj
    by_cases hid : clean_text (row.getD mapping.position_id Cell.cnan) = ""
    · simp only [hid, ne_eq, not_true_eq_false, if_false, reduceIte] at hj
      cases hcur : st.current with
      | none =>
        rw [hcur] at hj
        exact Or.inl hj
      | some cur =>
        rw [hcur] at hj
        rcases hj with ⟨p, hp, hjp⟩
        simp only at hp
        rcases hp with hp | hp
        · exact Or.inl ⟨p, Or.inl hp, hjp⟩
        · injection hp with hp
          rw [← hp, fillTotalPrice_indices, fillUnitPrice_indices, fillQuantity_indices,
            fillUnit_indices] at hjp
          simp only [List.mem_append, List.mem_singleton] at hjp
          rcases hjp with hjp | hjp
          · exact Or.inl ⟨cur, Or.inr hcur, hjp⟩
          · exact Or.inr ⟨hjp, ht⟩
    · simp only [hid, ne_eq, not_false_eq_true, if_true, reduceIte] at hj
      rcases hj with ⟨p, hp, hjp⟩
      simp only at hp
      rcases hp with hp | hp
      · -- p is among positions after the (possible) finalization
        cases hcur : st.current with
        | none =>
          rw [hcur] at hp
          exact Or.inl ⟨p, Or.inl hp, hjp⟩
        | some cur =>
          rw [hcur] at hp
          rcases finalize_mem disc cur st.description_parts st.positions st.warnings p hp with
            hmem | hidx
          · exact Or.inl ⟨p, Or.inl hmem, hjp⟩
          · rw [hidx] at hjp
            exact Or.inl ⟨cur, Or.inr hcur, hjp⟩
      · -- p is the freshly started position: its indices are [i, i]
        injection hp with hp
        rw [← hp, fillTotalPrice_indices, fillUnitPrice_indices, fillQuantity_indices,
          fillUnit_indices] at hjp
        simp only [List.mem_append, List.mem_singleton, List.mem_cons,
          List.not_mem_nil, or_false] at hjp
        rcases hjp with hjp | hjp <;> exact Or.inr ⟨hjp, ht⟩

theorem parsePosAux_stateIdx (mapping : ColumnMapping) (disc : String) :
    ∀ (l : List (List Cell)) (n : Nat) (st : ParseState) (j : Nat),
      StateIdx (parsePosAux mapping disc st n l) j →
      StateIdx st j ∨
        ∃ k row, l[k]? = some row ∧ is_total_row row = false ∧ j = n + k := by
  intro l
  induction l with
  | nil =>
    intro n st j hj
    exact Or.inl hj
  | cons row rest ih =>
    intro n st j hj
    rcases ih (n + 1) (parseStep mapping disc st n row) j hj with h1 | ⟨k, r, hk, hr, hjk⟩
    · rcases parseStep_stateIdx mapping disc st n row j h1 with h2 | ⟨h2, h3⟩
      · exact Or.inl h2
      · exact Or.inr ⟨0, row, by simp, h3, by omega⟩
    · exact Or.inr ⟨k + 1, r, by simpa using hk, hr, by omega⟩

/-- C6: a row whose cells contain a total marker is inert: the step
function leaves any parse state unchanged on it, and its row index never
appears in any emitted position's source_row_indices. -/
theorem c6_total_row_skipped (df : List (List Cell)) (mapping : ColumnMapping) (h : Nat)
    (disc : String) (i : Nat) (rowI : List Cell)
    (hrow : df[i]? = some rowI)
    (ht : is_total_row rowI = true) :
    (∀ st, parseStep mapping disc st i rowI = st) ∧
    (∀ p ∈ (parse_positions df mapping h disc).1, i ∉ p.source_row_indices) := by
  constructor
  · intro st
    exact parseStep_total mapping disc st i rowI ht
  · intro p hp hmem
    -- lift membership in the flushed output back to the final loop state
    have hsi : StateIdx (parsePosAux mapping disc
        { positions := [], warnings := [], current := none, description_parts := [] }
        (h + 1) (df.drop (h + 1))) i := by
      simp only [parse_positions] at hp
      cases hcur : (parsePosAux mapping disc
          { positions := [], warnings := [], current := none, description_parts := [] }
          (h + 1) (df.drop (h + 1))).current with
      | none =>
        rw [hcur] at hp
        exact ⟨p, Or.inl hp, hmem⟩
      | some cur =>
        rw [hcur] at hp
        rcases finalize_mem disc cur _ _ _ p hp with hmem2 | hidx
        · exact ⟨p, Or.inl hmem2, hmem⟩
        · rw [hidx] at hmem
          exact ⟨cur, Or.inr hcur, hmem⟩
    rcases parsePosAux_stateIdx mapping disc _ _ _ _ hsi with h1 | ⟨k, r, hk, hr, hik⟩
    · rcases h1 with ⟨q, hq, hiq⟩
      rcases hq with hq | hq
      · simp at hq
      · simp at hq
    · rw [List.getElem?_drop] at hk
      have heq : h + 1 + k = i := by omega
      rw [heq, hrow] at hk
      injection hk with hk
      rw [hk] at ht
      rw [ht] at hr
      exact Bool.noConfusion hr

/-- The single position parsed from scenarioCD: the continuation row is
merged, the UKUPNO row at index 3 is excluded. -/
def scenarioCDPos : BoQPosition :=
  { discipline := "Sheet1", position_id := "1", description := "Beton marke MB30",
    unit := "m3", quantity := some ⟨10, 0⟩, unit_price := some ⟨100, 0⟩,
    total_price := some ⟨1000, 0⟩, source_row_indices := [1, 1, 2],
    computed_total := some ⟨1000, 0⟩, total_matches := true }

/-- Witness for C6 at the UKUPNO row of scenarioCD. -/
theorem c6_total_row_skipped_witness :
    is_total_row (scenarioCD.getD 3 []) = true ∧
    parseStep stdMapping "Sheet1" c4State 3 (scenarioCD.getD 3 []) = c4State ∧
    (parse_positions scenarioCD stdMapping 0 "Sheet1").1 = [scenarioCDPos] ∧
    3 ∉ scenarioCDPos.source_row_indices :=
  ⟨by decide,
   (c6_total_row_skipped scenarioCD stdMapping 0 "Sheet1" 3 (scenarioCD.getD 3 [])
      (by decide) (by decide)).1 c4State,
   by decide,
   (c6_total_row_skipped scenarioCD stdMapping 0 "Sheet1" 3 (scenarioCD.getD 3 [])
      (by decide) (by decide)).2 scenarioCDPos (by decide)⟩

/-! ## C7: numeric text extraction -/

theorem takeWhile_append_all (p : Char → Bool) (l1 l2 : List Char)
    (h1 : ∀ c ∈ l1, p c = true) (h2 : ∀ c, l2.head? = some c → p c = false) :
    (l1 ++ l2).takeWhile p = l1 := by
  induction l1 with
  | nil =>
    cases l2 with
    | nil => rfl
    | cons c rest =>
      simp only [List.nil_append, List.takeWhile_cons, h2 c rfl, Bool.false_eq_true, if_false]
  | cons c rest ih =>
    simp only [List.cons_append, List.takeWhile_cons, h1 c (by simp), if_true]
    rw [ih (fun x hx => h1 x (by simp [hx]))]

theorem isNumTail_of_digit (c : Char) (h : c.isDigit = true) : isNumTail c = true := by
  unfold isNumTail
  rw [h]
  rfl

theorem firstNumericMatch_leftmost (pre : List Char) (dash : Bool) (d : Char)
    (t post : List Char)
    (hd : d.isDigit = true)
    (ht : ∀ c ∈ t, isNumTail c = true)
    (hpre : ∀ c ∈ pre, c.isDigit = false)
    (hdash : pre.getLast? = some '-' → dash = true)
    (hpost : ∀ c, post.head? = some c → isNumTail c = false) :
    firstNumericMatch (pre ++ (cond dash ['-'] []) ++ (d :: t) ++ post) =
      some ((cond dash ['-'] []) ++ (d :: t)) := by
  have htake : (t ++ post).takeWhile isNumTail = t := takeWhile_append_all isNumTail t post ht hpost
  induction pre with
  | nil =>
    cases dash with
    | false =>
      simp only [cond_false, List.nil_append, List.cons_append]
      show firstNumericMatch (d :: (t ++ post)) = some (d :: t)
      unfold firstNumericMatch
      rw [if_pos hd]
      rw [htake]
    | true =>
      simp only [cond_true, List.nil_append, List.cons_append]
      show firstNumericMatch ('-' :: d :: (t ++ post)) = some ('-' :: d :: t)
      unfold firstNumericMatch
      have h1 : ('-').isDigit = false := by decide
      rw [if_neg (by rw [h1]; exact Bool.false_ne_true)]
      have h2 : (('-' : Char) = '-' && ((d :: (t ++ post)).head?.elim false Char.isDigit)) = true := by
        simp [hd]
      rw [if_pos h2]
      simp only [List.takeWhile_cons, isNumTail_of_digit d hd, if_true, htake]
  | cons a pre' ih =>
    have ha : a.isDigit = false := hpre a (by simp)
    simp only [List.cons_append]
    unfold firstNumericMatch
    rw [if_neg (by rw [ha]; exact Bool.false_ne_true)]
    have hcond : (a = '-' &&
        ((pre' ++ (cond dash ['-'] []) ++ (d :: t) ++ post).head?.elim false Char.isDigit)) = false := by
      cases pre' with
      | cons c' rest' =>
        have : c'.isDigit = false := hpre c' (by simp)
        simp [this]
      | nil =>
        cases dash with
        | true => simp
        | false =>
          by_cases hav : a = '-'
          · exact absurd (hdash (by simp [hav])) (by simp)
          · simp [hav]
    rw [if_neg (by rw [hcond]; exact Bool.false_ne_true)]
    apply ih
    · intro c hc; exact hpre c (by simp [hc])
    · intro hlast
      apply hdash
      cases pre' with
      | nil => simp at hlast
      | cons c' rest' =>
        rw [List.getLast?_cons_cons]
        exact hlast

theorem nbsp_map_id (L : List Char) (h : ∀ c ∈ L, c ≠ ' ') :
    L.map (fun c => if c = ' ' then ' ' else c) = L := by
  induction L with
  | nil => rfl
  | cons c rest ih =>
    simp only [List.map_cons, if_neg (h c (by simp)), List.cons.injEq, true_and]
    exact ih (fun x hx => h x (by simp [hx]))

/-- C7: parse_decimal maps "1.234,56" to exactly 1234.56, "0" to 0 (not
null) and empty or missing cells to null; and on any text whose stripped
form decomposes as a digit-free prefix, the leftmost maximal
optional-sign-digits-with-separators substring, and a non-numeric suffix,
it extracts precisely that substring and reinterprets it with "." removed
as a thousands separator and "," as the decimal point. -/
theorem c7_parse_decimal :
    (parse_decimal (Cell.cstr "1.234,56") = some ⟨123456, 2⟩ ∧
      Dec.toRat ⟨123456, 2⟩ = 1234.56) ∧
    (parse_decimal (Cell.cstr "0") = some ⟨0, 0⟩ ∧ Dec.toRat ⟨0, 0⟩ = 0) ∧
    parse_decimal (Cell.cstr "") = none ∧
    parse_decimal Cell.cnone = none ∧
    parse_decimal Cell.cnan = none ∧
    (∀ (pre : List Char) (dash : Bool) (d : Char) (t post : List Char),
      d.isDigit = true →
      (∀ c ∈ t, isNumTail c = true) →
      (∀ c ∈ pre, c.isDigit = false) →
      (pre.getLast? = some '-' → dash = true) →
      (∀ c, post.head? = some c → isNumTail c = false) →
      stripList (pre ++ (cond dash ['-'] []) ++ (d :: t) ++ post) =
        pre ++ (cond dash ['-'] []) ++ (d :: t) ++ post →
      (∀ c ∈ pre ++ (cond dash ['-'] []) ++ (d :: t) ++ post, c ≠ ' ') →
      parse_decimal (Cell.cstr (String.mk
          (pre ++ (cond dash ['-'] []) ++ (d :: t) ++ post))) =
        decimalOfChars (euroTransform ((cond dash ['-'] []) ++ (d :: t)))) := by
  refine ⟨⟨by decide, by norm_num [Dec.toRat]⟩, ⟨by decide, by norm_num [Dec.toRat]⟩,
    by decide, by decide, by decide, ?_⟩
  intro pre dash d t post hd ht hpre hdash hpost hstrip hnb
  unfold parse_decimal
  show (let text := stripList (pre ++ (cond dash ['-'] []) ++ (d :: t) ++ post);
    if text.isEmpty then none
    else
      let text := text.map (fun c => if c = ' ' then ' ' else c)
      match firstNumericMatch text with
      | none => none
      | some m => decimalOfChars (euroTransform m)) =
    decimalOfChars (euroTransform ((cond dash ['-'] []) ++ (d :: t)))
  rw [hstrip]
  have hne : (pre ++ (cond dash ['-'] []) ++ (d :: t) ++ post).isEmpty = false := by
    cases pre <;> cases dash <;> simp
  simp only [hne, Bool.false_eq_true, if_false]
  rw [nbsp_map_id _ hnb]
  rw [firstNumericMatch_leftmost pre dash d t post hd ht hpre hdash hpost]

/-- Witness for C7 at the text "o 42,5 kg" (extracts "42,5" → 42.5). -/
theorem c7_parse_decimal_witness :
    parse_decimal (Cell.cstr (String.mk
        ((['o', ' '] : List Char) ++ (cond false ['-'] []) ++
          ('4' :: (['2', ',', '5'] : List Char)) ++ ([' ', 'k', 'g'] : List Char)))) =
      decimalOfChars (euroTransform ((cond false ['-'] []) ++
        ('4' :: (['2', ',', '5'] : List Char)))) :=
  c7_parse_decimal.2.2.2.2.2 ['o', ' '] false '4' ['2', ',', '5'] [' ', 'k', 'g']
    (by decide) (by decide) (by decide) (by decide) (by decide) (by decide) (by decide)

/-! ## C5: source row indices and description assembly -/

/-- Shape of a finalized position: the seed row index appears twice, then
the continuation rows in increasing order, and the description is the
space-joined trimmed concatenation of the non-empty fragments of the
contributing rows taken once each. -/
def PosShape (df : List (List Cell)) (mapping : ColumnMapping) (p : BoQPosition) : Prop :=
  ∃ r ds, p.source_row_indices = r :: r :: ds ∧
    List.Chain' (fun a b => a < b) (r :: ds) ∧
    isNewPositionRowAt df mapping r = true ∧
    (∀ j ∈ ds, isContinuationRowAt df mapping j = true) ∧
    p.description = pyStrip (String.intercalate " "
      (((r :: ds).map (descFragmentAt df mapping)).filter (fun s => s ≠ "")))

/-- Shape of the accumulating position and its pending description parts;
n is the index of the next row to process. -/
def CurShape (df : List (List Cell)) (mapping : ColumnMapping) (n : Nat)
    (cur : BoQPosition) (parts : List String) : Prop :=
  ∃ r ds, cur.source_row_indices = r :: r :: ds ∧
    List.Chain' (fun a b => a < b) (r :: ds) ∧
    (∀ j ∈ r :: ds, j < n) ∧
    isNewPositionRowAt df mapping r = true ∧
    (∀ j ∈ ds, isContinuationRowAt df mapping j = true) ∧
    parts = ((r :: ds).map (descFragmentAt df mapping)).filter (fun s => s ≠ "")

def Inv (df : List (List Cell)) (mapping : ColumnMapping) (n : Nat) (st : ParseState) : Prop :=
  (∀ p ∈ st.positions, PosShape df mapping p) ∧
  (∀ cur, st.current = some cur → CurShape df mapping n cur st.description_parts)

theorem enforce_description (p : BoQPosition) (ws : List String) :
    (enforce_numeric_integrity p ws).1.description = p.description := by
  by_cases hz : isNoneOrZero p.total_price = true
  · simp [enforce_numeric_integrity, hz]
  · simp [enforce_numeric_integrity, hz]

theorem finalize_posShape (df : List (List Cell)) (mapping : ColumnMapping)
    (disc : String) (cur : BoQPosition) (parts : List String)
    (pos : List BoQPosition) (ws : List String) (n : Nat)
    (hcur : CurShape df mapping n cur parts) (p : BoQPosition)
    (hp : p ∈ (finalizeCurrent disc cur parts pos ws).1) :
    p ∈ pos ∨ PosShape df mapping p := by
  unfold finalizeCurrent at hp
  simp only [List.mem_append, List.mem_singleton] at hp
  rcases hp with hp | hp
  · exact Or.inl hp
  · right
    rcases hcur with ⟨r, ds, hidx, hchain, _, hnew, hcont, hparts⟩
    refine ⟨r, ds, ?_, hchain, hnew, hcont, ?_⟩
    · rw [hp, enforce_indices]
      exact hidx
    · rw [hp, enforce_description]
      show pyStrip (String.intercalate " " (parts.filter (fun s => s ≠ ""))) = _
      rw [hparts, List.filter_filter]
      simp

theorem rowAt_eq (df : List (List Cell)) (n : Nat) (row : List Cell)
    (hrow : df[n]? = some row) : rowAt df n = row := by
  unfold rowAt
  rw [List.getD_eq_getElem?_getD, hrow]
  rfl

theorem parseStep_inv (df : List (List Cell)) (mapping : ColumnMapping) (disc : String)
    (pos0 : List BoQPosition) (ws0 : List String) (cur0 : Option BoQPosition)
    (parts0 : List String) (n : Nat) (row : List Cell)
    (hrow : df[n]? = some row)
    (hinv : Inv df mapping n ⟨pos0, ws0, cur0, parts0⟩) :
    Inv df mapping (n + 1) (parseStep mapping disc ⟨pos0, ws0, cur0, parts0⟩ n row) := by
  obtain ⟨hpos, hcur⟩ := hinv
  have hrowAt : rowAt df n = row := rowAt_eq df n row hrow
  by_cases ht : is_total_row row = true
  · rw [parseStep_total mapping disc _ n row ht]
    refine ⟨hpos, ?_⟩
    intro cur hc
    rcases hcur cur hc with ⟨r, ds, h1, h2, h3, h4, h5, h6⟩
    exact ⟨r, ds, h1, h2, fun j hj => Nat.lt_succ_of_lt (h3 j hj), h4, h5, h6⟩
  · rw [Bool.not_eq_true] at ht
    unfold parseStep
    simp only [ht, Bool.false_eq_true, if_false]
    by_cases hid : clean_text (row.getD mapping.position_id Cell.cnan) = ""
    · -- continuation row (or ignored when no current position)
      simp only [hid, ne_eq, not_true_eq_false, if_false, reduceIte]
      cases cur0 with
      | none =>
        refine ⟨hpos, ?_⟩
        intro cur hcc
        exact Option.noConfusion hcc
      | some cur =>
        refine ⟨hpos, ?_⟩
        intro cur' hcc
        simp only [Option.some.injEq] at hcc
        rcases hcur cur rfl with ⟨r, ds, h1, h2, h3, h4, h5, h6⟩
        refine ⟨r, ds ++ [n], ?_, ?_, ?_, h4, ?_, ?_⟩
        · rw [← hcc, fillTotalPrice_indices, fillUnitPrice_indices, fillQuantity_indices,
            fillUnit_indices]
          show cur.source_row_indices ++ [n] = r :: r :: (ds ++ [n])
          rw [h1]
          rfl
        · show List.Chain' (fun a b => a < b) ((r :: ds) ++ [n])
          rw [List.chain'_append]
          refine ⟨h2, List.chain'_singleton n, ?_⟩
          intro x hx y hy
          simp only [List.head?_cons, Option.mem_def, Option.some.injEq] at hy
          rw [← hy]
          exact h3 x (List.mem_of_mem_getLast? hx)
        · intro j hj
          rcases List.mem_cons.mp hj with hj | hj
          · exact Nat.lt_succ_of_lt (h3 j (by simp [hj]))
          · rcases List.mem_append.mp hj with hj | hj
            · exact Nat.lt_succ_of_lt (h3 j (by simp [hj]))
            · rw [List.mem_singleton.mp hj]
              omega
        · intro j hj
          simp only [List.mem_append, List.mem_singleton] at hj
          rcases hj with hj | hj
          · exact h5 j hj
          · rw [hj]
            unfold isContinuationRowAt
            rw [hrowAt, ht, hid]
            rfl
        · show (if clean_text (row.getD mapping.description Cell.cnan) ≠ "" then
              parts0 ++ [clean_text (row.getD mapping.description Cell.cnan)]
            else parts0) =
            ((r :: (ds ++ [n])).map (descFragmentAt df mapping)).filter (fun s => s ≠ "")
          have hfrag : descFragmentAt df mapping n =
              clean_text (row.getD mapping.description Cell.cnan) := by
            unfold descFragmentAt
            rw [hrowAt]
          have hsplit : (r :: (ds ++ [n])) = (r :: ds) ++ [n] := rfl
          rw [hsplit, List.map_append, List.filter_append, ← h6, List.map_singleton, hfrag]
          set X := clean_text (row.getD mapping.description Cell.cnan) with hX
          by_cases hne : X = ""
          · simp [hne]
          · simp [hne]
    · -- new-position row
      simp only [hid, ne_eq, not_false_eq_true, if_true, reduceIte]
      constructor
      · -- positions after the (possible) finalization of the old current
        intro p hp
        cases cur0 with
        | none =>
          exact hpos p hp
        | some cur =>
          rcases finalize_posShape df mapping disc cur parts0 pos0
            ws0 n (hcur cur rfl) p hp with hmem | hshape
          · exact hpos p hmem
          · exact hshape
      · -- the freshly seeded current position
        intro cur' hcc
        simp only [Option.some.injEq] at hcc
        refine ⟨n, [], ?_, List.chain'_singleton n, ?_, ?_, ?_, ?_⟩
        · rw [← hcc, fillTotalPrice_indices, fillUnitPrice_indices, fillQuantity_indices,
            fillUnit_indices]
          rfl
        · intro j hj
          simp only [List.mem_cons, List.not_mem_nil, or_false] at hj
          omega
        · unfold isNewPositionRowAt
          rw [hrowAt, ht]
          simp only [Bool.not_false, Bool.true_and, decide_eq_true_eq]
          exact hid
        · intro j hj
          exact absurd hj (List.not_mem_nil j)
        · show (if clean_text (row.getD mapping.description Cell.cnan) ≠ "" then
              ([] : List String) ++ [clean_text (row.getD mapping.description Cell.cnan)]
            else []) =
            (([n].map (descFragmentAt df mapping)).filter (fun s => s ≠ ""))
          have hfrag : descFragmentAt df mapping n =
              clean_text (row.getD mapping.description Cell.cnan) := by
            unfold descFragmentAt
            rw [hrowAt]
          rw [List.map_singleton, hfrag]
          set X := clean_text (row.getD mapping.description Cell.cnan) with hX
          by_cases hne : X = ""
          · simp [hne]
          · simp [hne]

theorem parsePosAux_inv (df : List (List Cell)) (mapping : ColumnMapping) (disc : String) :
    ∀ (l : List (List Cell)) (n : Nat) (st : ParseState),
      (∀ k row, l[k]? = some row → df[n + k]? = some row) →
      Inv df mapping n st →
      Inv df mapping (n + l.length) (parsePosAux mapping disc st n l) := by
  intro l
  induction l with
  | nil =>
    intro n st _ hinv
    simpa using hinv
  | cons row rest ih =>
    intro n st hl hinv
    have hrow : df[n]? = some row := by
      have := hl 0 row (by simp)
      simpa using this
    have hstep : Inv df mapping (n + 1) (parseStep mapping disc st n row) :=
      parseStep_inv df mapping disc st.positions st.warnings st.current
        st.description_parts n row hrow hinv
    have hl2 : ∀ k row2, rest[k]? = some row2 → df[(n + 1) + k]? = some row2 := by
      intro k row2 hk
      have heq : n + 1 + k = n + (k + 1) := by omega
      rw [heq]
      exact hl (k + 1) row2 (by simpa using hk)
    have := ih (n + 1) (parseStep mapping disc st n row) hl2 hstep
    have harith : n + 1 + rest.length = n + (row :: rest).length := by
      simp only [List.length_cons]
      omega
    rw [harith] at this
    exact this

/-- C5 amended: every emitted position's source_row_indices is its
new-position row's index twice (once from seeding, once from the shared
row-processing path), followed by the indices of its continuation rows in
increasing row order, and description is the space-joined trimmed
concatenation of the non-empty description fragments of those rows taken
once each, in row order. -/
theorem c5_sources_amended (df : List (List Cell)) (mapping : ColumnMapping)
    (h : Nat) (disc : String) :
    ∀ p ∈ (parse_positions df mapping h disc).1,
      ∃ r ds, p.source_row_indices = r :: r :: ds ∧
        List.Chain' (fun a b => a < b) (r :: ds) ∧
        isNewPositionRowAt df mapping r = true ∧
        (∀ j ∈ ds, isContinuationRowAt df mapping j = true) ∧
        p.description = pyStrip (String.intercalate " "
          (((r :: ds).map (descFragmentAt df mapping)).filter (fun s => s ≠ ""))) := by
  intro p hp
  have hinv0 : Inv df mapping (h + 1)
      { positions := [], warnings := [], current := none, description_parts := [] } := by
    constructor
    · intro q hq
      exact absurd hq (List.not_mem_nil q)
    · intro c hc
      exact Option.noConfusion hc
  have hl : ∀ k row, (df.drop (h + 1))[k]? = some row → df[(h + 1) + k]? = some row := by
    intro k row hk
    rw [← List.getElem?_drop]
    exact hk
  have hfin := parsePosAux_inv df mapping disc (df.drop (h + 1)) (h + 1) _ hl hinv0
  obtain ⟨hfp, hfc⟩ := hfin
  simp only [parse_positions] at hp
  cases hcur : (parsePosAux mapping disc
      { positions := [], warnings := [], current := none, description_parts := [] }
      (h + 1) (df.drop (h + 1))).current with
  | none =>
    rw [hcur] at hp
    exact hfp p hp
  | some cur =>
    rw [hcur] at hp
    rcases finalize_posShape df mapping disc cur _ _ _ _ (hfc cur hcur) p hp with
      hmem | hshape
    · exact hfp p hmem
    · exact hshape

/-- C5 counterexample: on Scenario A the single emitted position records
its only contributing row's index twice — source_row_indices is [1, 1],
not duplicate-free as the claim states. -/
theorem c5_duplicate_first_index :
    parse_workbook [("Sheet1", scenarioA)] =
      [{ discipline := "Sheet1", sheet_name := "Sheet1",
         positions := [scenarioAPos], warnings := [] }] ∧
    scenarioAPos.source_row_indices = [1, 1] ∧
    ¬ scenarioAPos.source_row_indices.Nodup :=
  ⟨by decide, by decide, by decide⟩

/-- Witness for C5 amended at scenarioCD's merged position. -/
theorem c5_sources_amended_witness :
    scenarioCDPos ∈ (parse_positions scenarioCD stdMapping 0 "Sheet1").1 ∧
    (∃ r ds, scenarioCDPos.source_row_indices = r :: r :: ds ∧
      List.Chain' (fun a b => a < b) (r :: ds) ∧
      isNewPositionRowAt scenarioCD stdMapping r = true ∧
      (∀ j ∈ ds, isContinuationRowAt scenarioCD stdMapping j = true) ∧
      scenarioCDPos.description = pyStrip (String.intercalate " "
        (((r :: ds).map (descFragmentAt scenarioCD stdMapping)).filter (fun s => s ≠ "")))) :=
  ⟨by decide, c5_sources_amended scenarioCD stdMapping 0 "Sheet1" scenarioCDPos (by decide)⟩

end BoQ
